import Mathlib

/-!
# Verification of the dala content-acquisition engine

This development embeds the core of the repository in Lean 4:

* `fetch_with_retry` (src/epub_downloader/core/session.py) — the retry/backoff
  network gateway, modelled over an oracle describing each attempt's outcome.
* `optimize_and_get_details`, `is_junk`, candidate building and asset minting of
  `ImageProcessor.process_images` and `ForumImageProcessor.process_images`
  (src/epub_downloader/core/image_processor.py).
* URL helpers from src/dala/models.py (`normalize_url_for_matching`,
  `sanitize_filename`) together with the small subsets of Python's
  `urllib.parse`, `os.path` and `mimetypes` that those code paths use.
* `_enrich_comment_tree` (src/dala/utils/formatting.py).

Modelling conventions:
* Machine-independent data only: byte payloads are `List Nat`, floats appearing
  as retry delays are `ℚ` (the constants involved are exactly representable).
* The network is an oracle (a function from request data to a response);
  each model records the URLs it actually fetched, so "issues no network call"
  is a statement about the recorded list.
* Pillow (image decoding/optimization) is a record of oracle functions
  (`decode`, `resize`, `save`); the branch structure around them follows the
  source. `HAS_PILLOW` is `True`.
* Python's process-seeded `hash` builtin is an oracle `String → Nat`.
* `hashlib.sha1` digests are modelled by keying maps directly on the digested
  bytes (sha1 is deterministic and treated as collision-free).
* String functions are implemented over `List Char` so that every definition
  evaluates inside the kernel; URLs in this code base are ASCII.
-/

namespace Dala

/-- Bytes of a payload. -/
abbrev Bytes := List Nat

/-! ## Python string primitives over `List Char` -/

/-- Does `l` start with `pat`? -/
def listStartsWith : List Char → List Char → Bool
  | _, [] => true
  | [], _ :: _ => false
  | c :: cs, d :: ds => c = d && listStartsWith cs ds

/-- Python `s.startswith(pat)`. -/
def strStartsWith (s pat : String) : Bool :=
  listStartsWith s.toList pat.toList

/-- Python `s.endswith(pat)`. -/
def strEndsWith (s pat : String) : Bool :=
  listStartsWith s.toList.reverse pat.toList.reverse

/-- Index of the first occurrence of `pat` in `l`, if any. -/
def findSubIdx (pat : List Char) : List Char → Option Nat
  | [] => if pat = [] then some 0 else none
  | l@(_ :: rest) =>
    if listStartsWith l pat then some 0
    else (findSubIdx pat rest).map (fun i => i + 1)

/-- Python `sub in s` (substring containment); `"" in s` is `True`. -/
def containsSub (s sub : String) : Bool :=
  (findSubIdx sub.toList s.toList).isSome

/-- Split at the first occurrence of `sep`: Python `s.split(sep, 1)` giving
`(before, after)`, with `after = ""` when `sep` does not occur. -/
def splitFirst (s sep : String) : String × String :=
  match findSubIdx sep.toList s.toList with
  | none => (s, "")
  | some i => ((s.toList.take i).asString, (s.toList.drop (i + sep.length)).asString)

/-- Python `s.split(sep, 1)[0]`. -/
def beforeFirst (s sep : String) : String :=
  (splitFirst s sep).fst

/-- Auxiliary for `splitAll`, structurally recursive on a character budget. -/
def splitAllGo (sep : List Char) : Nat → List Char → List (List Char)
  | 0, l => [l]
  | fuel + 1, l =>
    match findSubIdx sep l with
    | none => [l]
    | some i => l.take i :: splitAllGo sep fuel (l.drop (i + sep.length))

/-- Python `s.split(sep)` for a nonempty separator (keeps empty pieces). -/
def splitAll (s sep : String) : List String :=
  if sep = "" then [s]
  else (splitAllGo sep.toList s.length s.toList).map List.asString

/-- Auxiliary for `replaceAll`, structurally recursive on a character budget. -/
def replaceAllGo (pat rep : List Char) : Nat → List Char → List Char
  | 0, l => l
  | fuel + 1, l =>
    match l with
    | [] => []
    | c :: rest =>
      if pat ≠ [] ∧ listStartsWith l pat then
        rep ++ replaceAllGo pat rep fuel (l.drop pat.length)
      else c :: replaceAllGo pat rep fuel rest

/-- Python `s.replace(pat, rep)`: every non-overlapping occurrence, left to
right. -/
def replaceAll (s pat rep : String) : String :=
  (replaceAllGo pat.toList rep.toList s.length s.toList).asString

/-- ASCII lowering of one character (Python `str.lower` on the ASCII inputs of
this code base). -/
def charLower (c : Char) : Char :=
  if 'A' ≤ c ∧ c ≤ 'Z' then
    match c with
    | 'A' => 'a' | 'B' => 'b' | 'C' => 'c' | 'D' => 'd' | 'E' => 'e'
    | 'F' => 'f' | 'G' => 'g' | 'H' => 'h' | 'I' => 'i' | 'J' => 'j'
    | 'K' => 'k' | 'L' => 'l' | 'M' => 'm' | 'N' => 'n' | 'O' => 'o'
    | 'P' => 'p' | 'Q' => 'q' | 'R' => 'r' | 'S' => 's' | 'T' => 't'
    | 'U' => 'u' | 'V' => 'v' | 'W' => 'w' | 'X' => 'x' | 'Y' => 'y'
    | 'Z' => 'z' | d => d
  else c

/-- Python `s.lower()`. -/
def strLower (s : String) : String :=
  (s.toList.map charLower).asString

/-- The characters matched by Python's `\s` / stripped by `str.strip()`
(ASCII range). -/
def isPyWhitespace (c : Char) : Bool :=
  c = ' ' ∨ c = '\t' ∨ c = '\n' ∨ c = '\r' ∨ c = '\x0b' ∨ c = '\x0c'

/-- Python `s.strip()`. -/
def strStrip (s : String) : String :=
  ((s.toList.dropWhile isPyWhitespace).reverse.dropWhile isPyWhitespace).reverse.asString

/-- Python `s.rstrip(c)` for a single strip character. -/
def rstripChar (c : Char) (s : String) : String :=
  ((s.toList.reverse.dropWhile (fun d => d = c)).reverse).asString

/-- Python `s.strip(c)` for a single strip character. -/
def stripChar (c : Char) (s : String) : String :=
  (((s.toList.dropWhile (fun d => d = c)).reverse.dropWhile (fun d => d = c)).reverse).asString

/-- Auxiliary for `sanitize_filename`: replace each maximal whitespace run by a
single underscore (Python `re.sub(r'\s+', '_', s)`). The flag records whether
the previous character belonged to a whitespace run. -/
def collapseWhitespace : Bool → List Char → List Char
  | _, [] => []
  | prevWs, c :: rest =>
    if isPyWhitespace c then
      if prevWs then collapseWhitespace true rest
      else '_' :: collapseWhitespace true rest
    else c :: collapseWhitespace false rest

/-! ## URL helpers from src/dala/models.py -/

/-- `normalize_url_for_matching` (src/dala/models.py lines 118-127): canonical
form for URL matching.  Python's `str.replace` replaces every occurrence of
the scheme substrings, as does `replaceAll`. -/
def normalize_url_for_matching (url : String) : String :=
  let cleaned := replaceAll (replaceAll url "https://" "") "http://" ""
  let cleaned := if strStartsWith cleaned "www." then cleaned.drop 4 else cleaned
  let cleaned := beforeFirst cleaned "?"
  let cleaned := beforeFirst cleaned "#"
  let cleaned := rstripChar '/' cleaned
  strLower cleaned

/-- `urls_match` (src/dala/models.py lines 129-133). -/
def urls_match (url1 url2 : String) : Bool :=
  if url1 = "" ∨ url2 = "" then false
  else normalize_url_for_matching url1 = normalize_url_for_matching url2

/-- `sanitize_filename` (src/dala/models.py lines 135-140): strip control
characters and reserved punctuation, collapse whitespace to underscores, trim
underscores, cap at 150 characters. -/
def sanitize_filename (filename : String) : String :=
  if filename = "" then "untitled"
  else
    let cs := filename.toList.filter (fun c => ¬ (c.toNat < 32))
    let cs := cs.filter (fun c =>
      ¬ (c = '<' ∨ c = '>' ∨ c = ':' ∨ c = '"' ∨ c = '/' ∨ c = '\\' ∨
         c = '|' ∨ c = '?' ∨ c = '*'))
    let s := (collapseWhitespace false cs).asString
    (stripChar '_' s).take 150

/-! ## `urllib.parse` subset

The code uses `urlparse`, `parse_qs`, `urljoin` on http(s) URLs.  The subset
below handles `scheme://netloc/path?query#fragment` shaped URLs and scheme-less
relative references; percent-decoding is not modelled (no input in this
development contains percent escapes). -/

structure ParsedUrl where
  scheme : String
  netloc : String
  path : String
  query : String
  fragment : String
deriving DecidableEq, Repr

def urlparse (url : String) : ParsedUrl :=
  let (rest, fragment) := splitFirst url "#"
  let (scheme, rest) :=
    if containsSub rest "://" then
      let (sc, r) := splitFirst rest "://"
      (strLower sc, "//" ++ r)
    else ("", rest)
  let (netloc, rest) :=
    if strStartsWith rest "//" then
      let r := rest.drop 2
      let nl := (r.toList.takeWhile (fun c => ¬ (c = '/' ∨ c = '?'))).asString
      (nl, r.drop nl.length)
    else ("", rest)
  let (path, query) := splitFirst rest "?"
  ⟨scheme, netloc, path, query, fragment⟩

/-- `parsed._replace(query=None).geturl()` for the subset above. -/
def rebuildWithoutQuery (p : ParsedUrl) : String :=
  (if p.scheme = "" then "" else p.scheme ++ "://") ++ p.netloc ++ p.path ++
    (if p.fragment = "" then "" else "#" ++ p.fragment)

/-- `urllib.parse.parse_qs` subset: split on `&`, pair at the first `=`, drop
blank values (`keep_blank_values=False`), no percent-decoding. -/
def parse_qs (query : String) : List (String × String) :=
  (splitAll query "&").filterMap (fun part =>
    if containsSub part "=" then
      let kv := splitFirst part "="
      if kv.snd = "" then none else some kv
    else none)

/-- First value for a key, as in the dict comprehension
`{k: v[0] for k, v in parse_qs(q).items() if v}`. -/
def qsGet (qs : List (String × String)) (k : String) : Option String :=
  (qs.find? (fun p => p.fst == k)).map (fun p => p.snd)

/-- `os.path.basename` for forward-slash paths. -/
def basename (p : String) : String :=
  (splitAll p "/").getLastD p

/-- Index (from the start) of the last occurrence of `c` in `s`. -/
def lastIdxOf (c : Char) (s : String) : Option Nat :=
  let l := s.toList
  match l.reverse.findIdx? (fun d => d = c) with
  | none => none
  | some i => some (l.length - 1 - i)

/-- `os.path.splitext(p)[0]` (CPython `genericpath._splitext`): split at the
last dot, provided it lies after the last separator and at least one non-dot
character precedes it within the basename. -/
def splitextStem (p : String) : String :=
  let l := p.toList
  let sepIdx : Int := match lastIdxOf '/' p with | none => -1 | some n => (n : Int)
  let dotIdx : Int := match lastIdxOf '.' p with | none => -1 | some n => (n : Int)
  if sepIdx < dotIdx then
    let start := (sepIdx + 1).toNat
    let stop := dotIdx.toNat
    if (List.range (stop - start)).any (fun k => l.getD (start + k) '.' ≠ '.') then
      (l.take stop).asString
    else p
  else p

/-- `urllib.parse.urljoin` subset: absolute targets are returned unchanged;
protocol-relative, root-relative and plain relative references are resolved
against the base (dot segments are not modelled — none occur here). -/
def urljoin (base target : String) : String :=
  if target = "" then base
  else if containsSub target "://" then target
  else
    let b := urlparse base
    if strStartsWith target "//" then b.scheme ++ ":" ++ target
    else if strStartsWith target "/" then b.scheme ++ "://" ++ b.netloc ++ target
    else
      let dir := (b.path.toList.reverse.dropWhile (fun c => ¬ (c = '/'))).reverse.asString
      b.scheme ++ "://" ++ b.netloc ++ (if dir = "" then "/" else dir) ++ target

/-! ## `mimetypes` subset (image types used by the code) -/

def guess_type (url : String) : Option String :=
  let lower := strLower url
  if strEndsWith lower ".jpg" ∨ strEndsWith lower ".jpeg" then some "image/jpeg"
  else if strEndsWith lower ".png" then some "image/png"
  else if strEndsWith lower ".gif" then some "image/gif"
  else if strEndsWith lower ".webp" then some "image/webp"
  else if strEndsWith lower ".svg" then some "image/svg+xml"
  else none

def guess_extension (mime : String) : Option String :=
  if mime = "image/jpeg" then some ".jpg"
  else if mime = "image/png" then some ".png"
  else if mime = "image/gif" then some ".gif"
  else if mime = "image/webp" then some ".webp"
  else none

/-- `headers.get('Content-Type','').split(';')[0].strip().lower()`; headers are
modelled as the optional Content-Type value. -/
def contentTypeOf (h : Option String) : String :=
  strLower (strStrip (beforeFirst (h.getD "") ";"))


set_option maxRecDepth 8000

/-! ## FetchGateway: `fetch_with_retry` (src/epub_downloader/core/session.py)

The network is an oracle `Nat → AttemptOutcome` giving the outcome of each
attempt (attempt indices are the loop variable `attempt`).  One attempt either
raises before a response exists (`transport`, covering `aiohttp.ClientError`
and `asyncio.TimeoutError` from `session.get`, and the `except Exception`
branch, both of which sleep `backoff * 2 ** attempt` and are fatal only on the
last attempt) or yields a response.  Reading/parsing the body of a response
either succeeds with a payload (the `json`/`bytes`/`text`/`headers` dispatch is
collapsed into one abstract payload string) or raises
(`ClientError`/`TimeoutError`/`UnicodeDecodeError` during `await ...`), which
lands in the same `except` branches.  `Retry-After` is the already-parsed
numeric header value (`none` = header absent, defaulting to 10). -/

inductive BodyRead where
  | ok (payload : String)
  | readError
deriving DecidableEq, Repr

structure HttpResponse where
  finalUrl : String
  status : Nat
  retryAfter : Option Nat
  body : BodyRead
deriving DecidableEq, Repr

inductive AttemptOutcome where
  | transport
  | resp (r : HttpResponse)
deriving DecidableEq, Repr

/-- Observable result of `fetch_with_retry`: the returned pair plus the list of
sleeps performed (in seconds) and the number of attempts made. -/
structure FetchRun where
  payload : Option String
  final_url : String
  sleeps : List ℚ
  attempts : Nat
deriving DecidableEq, Repr

/-- `MAX_RETRIES` (src/dala/models.py line 16). -/
def MAX_RETRIES : Nat := 5
/-- `RETRY_DELAY` (src/dala/models.py line 18). -/
def RETRY_DELAY : ℚ := 2

/-- The retry loop of `fetch_with_retry`, by recursion on the number of
remaining iterations (`remaining = max_retries - attempt`). -/
def fetchGo (oracle : Nat → AttemptOutcome) (url : String)
    (non_retry_statuses : List Nat) (backoff : ℚ) :
    Nat → Nat → List ℚ → Nat → FetchRun
  | 0, _, sleeps, made => ⟨none, url, sleeps, made⟩
  | remaining + 1, attempt, sleeps, made =>
    match oracle attempt with
    | .transport =>
      if remaining = 0 then ⟨none, url, sleeps, made + 1⟩
      else fetchGo oracle url non_retry_statuses backoff remaining (attempt + 1)
        (sleeps ++ [backoff * 2 ^ attempt]) (made + 1)
    | .resp r =>
      if r.status = 429 then
        let retry_after : Nat := r.retryAfter.getD 10
        let wait : ℚ := max (retry_after : ℚ) (backoff * 2 ^ attempt)
        fetchGo oracle url non_retry_statuses backoff remaining (attempt + 1)
          (sleeps ++ [wait]) (made + 1)
      else if non_retry_statuses ≠ [] ∧ r.status ∈ non_retry_statuses then
        ⟨none, r.finalUrl, sleeps, made + 1⟩
      else if r.status = 404 then ⟨none, r.finalUrl, sleeps, made + 1⟩
      else if 400 ≤ r.status then
        -- `raise_for_status` raises `ClientResponseError`, a `ClientError`
        if remaining = 0 then ⟨none, url, sleeps, made + 1⟩
        else fetchGo oracle url non_retry_statuses backoff remaining (attempt + 1)
          (sleeps ++ [backoff * 2 ^ attempt]) (made + 1)
      else
        match r.body with
        | .ok payload => ⟨some payload, r.finalUrl, sleeps, made + 1⟩
        | .readError =>
          if remaining = 0 then ⟨none, url, sleeps, made + 1⟩
          else fetchGo oracle url non_retry_statuses backoff remaining (attempt + 1)
            (sleeps ++ [backoff * 2 ^ attempt]) (made + 1)

/-- `fetch_with_retry` (src/epub_downloader/core/session.py lines 39-99),
observable behaviour over an attempt oracle. -/
def fetch_with_retry (oracle : Nat → AttemptOutcome) (url : String)
    (non_retry_statuses : List Nat) (backoff : ℚ) (max_retries : Nat) : FetchRun :=
  fetchGo oracle url non_retry_statuses backoff max_retries 0 [] 0


/-! ## Fetch oracles used in the claims -/

/-- A URL that always answers HTTP 429 with header `Retry-After: 5`. -/
def rateLimitedOracle (fu : String) : Nat → AttemptOutcome :=
  fun _ => .resp ⟨fu, 429, some 5, .readError⟩

/-- A URL that always answers HTTP 403. -/
def blockedOracle (fu : String) : Nat → AttemptOutcome :=
  fun _ => .resp ⟨fu, 403, none, .readError⟩

/-- A URL whose request redirects to a different final URL, answers 200, and
whose body read then fails (timeout while reading). -/
def redirectThenReadErrorOracle : Nat → AttemptOutcome :=
  fun _ => .resp ⟨"https://example.com/final", 200, none, .readError⟩

/-- Behaviour of the retry loop on a constant-429 oracle, for any window of the
loop: every iteration sleeps `max(Retry-After, backoff * 2 ** attempt)` and the
loop exhausts all remaining attempts, returning `(None, url)`. -/
theorem fetchGo_const429 (fu url : String) (nrs : List Nat) (backoff : ℚ) :
    ∀ (remaining attempt : Nat) (sleeps : List ℚ) (made : Nat),
      fetchGo (rateLimitedOracle fu) url nrs backoff remaining attempt sleeps made =
        ⟨none, url,
          sleeps ++ (List.range' attempt remaining).map
            (fun k => max (5 : ℚ) (backoff * 2 ^ k)),
          made + remaining⟩ := by
  intro remaining
  induction remaining with
  | zero => intro attempt sleeps made; simp [fetchGo]
  | succ n ih =>
    intro attempt sleeps made
    rw [fetchGo]
    simp only [rateLimitedOracle, Option.getD_some, if_true, List.range'_succ, List.map_cons]
    rw [ih]
    simp only [FetchRun.mk.injEq, List.append_assoc, List.singleton_append, true_and]
    exact ⟨rfl, by omega⟩


/-- C5 — For a URL that always returns HTTP 429 with header `Retry-After: 5`,
`fetch_with_retry` sleeps exactly `max(5, backoff * 2 ** attempt)` seconds
after each attempt (hence waits at least that long before each next attempt),
makes exactly `max_retries` attempts, and returns `(None, url)` after
exhausting them. -/
theorem C5_rate_limited_backoff (fu url : String) (nrs : List Nat) (backoff : ℚ)
    (max_retries : Nat) :
    fetch_with_retry (rateLimitedOracle fu) url nrs backoff max_retries =
      ⟨none, url,
        (List.range max_retries).map (fun k => max (5 : ℚ) (backoff * 2 ^ k)),
        max_retries⟩ := by
  rw [fetch_with_retry, fetchGo_const429, List.range_eq_range']
  simp

/-- C6 — With `non_retry_statuses = {403}` against a URL that always returns
HTTP 403, `fetch_with_retry` returns `(None, finalURL)` after exactly one
attempt, with no sleeps. -/
theorem C6_non_retry_fast_fail (fu url : String) (backoff : ℚ) (max_retries : Nat)
    (h : 1 ≤ max_retries) :
    fetch_with_retry (blockedOracle fu) url [403] backoff max_retries =
      ⟨none, fu, [], 1⟩ := by
  match max_retries, h with
  | n + 1, _ =>
    rw [fetch_with_retry, fetchGo]
    simp [blockedOracle]

/-- Witness for C6 at `max_retries = 5` (the repository default). -/
theorem C6_non_retry_fast_fail_witness :
    fetch_with_retry (blockedOracle "https://x.com/a") "https://x.com/a" [403] RETRY_DELAY
        MAX_RETRIES = ⟨none, "https://x.com/a", [], 1⟩ :=
  C6_non_retry_fast_fail "https://x.com/a" "https://x.com/a" RETRY_DELAY MAX_RETRIES
    (by decide)

/-- Helper for the amended C7: whenever the retry loop fails, the URL it
returns is either the original request URL (exhaustion paths) or the final
resolved URL of an attempt that hit a non-retryable status or a 404. -/
theorem fetchGo_failure_url (oracle : Nat → AttemptOutcome) (url : String)
    (nrs : List Nat) (backoff : ℚ) :
    ∀ (remaining attempt : Nat) (sleeps : List ℚ) (made : Nat),
      (fetchGo oracle url nrs backoff remaining attempt sleeps made).payload = none →
        (fetchGo oracle url nrs backoff remaining attempt sleeps made).final_url = url ∨
        ∃ k r, oracle k = .resp r ∧
          (fetchGo oracle url nrs backoff remaining attempt sleeps made).final_url =
            r.finalUrl ∧
          r.status ≠ 429 ∧ ((nrs ≠ [] ∧ r.status ∈ nrs) ∨ r.status = 404) := by
  intro remaining
  induction remaining with
  | zero => intro attempt sleeps made _; left; rfl
  | succ n ih =>
    intro attempt sleeps made hpay
    rw [fetchGo] at hpay ⊢
    rcases horacle : oracle attempt with _ | r
    · simp only [horacle] at hpay ⊢
      by_cases hn : n = 0
      · simp [hn]
      · rw [if_neg hn] at hpay ⊢
        exact ih (attempt + 1) _ _ hpay
    · simp only [horacle] at hpay ⊢
      by_cases h429 : r.status = 429
      · rw [if_pos h429] at hpay ⊢
        exact ih (attempt + 1) _ _ hpay
      · rw [if_neg h429] at hpay ⊢
        by_cases hnr : nrs ≠ [] ∧ r.status ∈ nrs
        · rw [if_pos hnr] at hpay ⊢
          exact Or.inr ⟨attempt, r, horacle, rfl, h429, Or.inl hnr⟩
        · rw [if_neg hnr] at hpay ⊢
          by_cases h404 : r.status = 404
          · rw [if_pos h404] at hpay ⊢
            exact Or.inr ⟨attempt, r, horacle, rfl, h429, Or.inr h404⟩
          · rw [if_neg h404] at hpay ⊢
            by_cases h400 : 400 ≤ r.status
            · rw [if_pos h400] at hpay ⊢
              by_cases hn : n = 0
              · simp [hn]
              · rw [if_neg hn] at hpay ⊢
                exact ih (attempt + 1) _ _ hpay
            · rw [if_neg h400] at hpay ⊢
              rcases hbody : r.body with p | _
              · simp [hbody] at hpay
              · simp only [hbody] at hpay ⊢
                by_cases hn : n = 0
                · simp [hn]
                · rw [if_neg hn] at hpay ⊢
                  exact ih (attempt + 1) _ _ hpay


/-- C7 (amended) — `fetch_with_retry` is a total function into
`(payload-or-none, URL)` pairs (the model's totality reflects that every
expected network condition is caught inside the loop), and on failure the
returned URL is either the original request URL (transport/decode/retry
exhaustion paths) or the final resolved URL of an attempt that ended with a
non-retryable status or a 404. -/
theorem C7_failure_collapse (oracle : Nat → AttemptOutcome) (url : String)
    (nrs : List Nat) (backoff : ℚ) (max_retries : Nat)
    (hfail : (fetch_with_retry oracle url nrs backoff max_retries).payload = none) :
    (fetch_with_retry oracle url nrs backoff max_retries).final_url = url ∨
    ∃ k r, oracle k = .resp r ∧
      (fetch_with_retry oracle url nrs backoff max_retries).final_url = r.finalUrl ∧
      r.status ≠ 429 ∧ ((nrs ≠ [] ∧ r.status ∈ nrs) ∨ r.status = 404) :=
  fetchGo_failure_url oracle url nrs backoff max_retries 0 [] 0 hfail

/-- Witness for C7 (amended): a concrete transport-failing run. -/
theorem C7_failure_collapse_witness :
    (fetch_with_retry (fun _ => .transport) "https://w.com/x" [] 2 1).final_url =
        "https://w.com/x" ∨
    ∃ (k : Nat) (r : HttpResponse), (fun _ => AttemptOutcome.transport) k = .resp r ∧
      (fetch_with_retry (fun _ => .transport) "https://w.com/x" [] 2 1).final_url =
        r.finalUrl ∧
      r.status ≠ 429 ∧ (([] ≠ ([] : List Nat) ∧ r.status ∈ ([] : List Nat)) ∨ r.status = 404) :=
  C7_failure_collapse (fun _ => .transport) "https://w.com/x" [] 2 1 rfl

/-- C7 (counterexample) — the claim as stated says every failure collapses to
`(none, finalURL)` where `finalURL` is the final resolved URL after redirects.
Concretely: a request to `https://example.com/start` that redirects to
`https://example.com/final`, answers 200, and then fails while its body is
read, returns the ORIGINAL url `https://example.com/start`, not the resolved
`https://example.com/final` seen by the attempt. -/
theorem C7_counterexample :
    fetch_with_retry redirectThenReadErrorOracle "https://example.com/start" [] 2 1 =
        ⟨none, "https://example.com/start", [], 1⟩ ∧
      (redirectThenReadErrorOracle 0 =
        .resp ⟨"https://example.com/final", 200, none, .readError⟩) ∧
      ("https://example.com/start" : String) ≠ "https://example.com/final" := by
  refine ⟨rfl, rfl, ?_⟩
  decide


/-! ## Image processing (src/epub_downloader/core/image_processor.py)

Constants from src/dala/models.py. -/

def IMAGE_DIR_IN_EPUB : String := "images"
def MAX_IMAGE_DIMENSION : Nat := 1000
def JPEG_QUALITY : Nat := 65
def IMG_MAX_CANDIDATES : Nat := 2

/-- An `ImageAsset` (src/dala/models.py lines 85-92). -/
structure ImageAsset where
  uid : String
  filename : String
  media_type : String
  content : Bytes
  original_url : String
  alt_urls : Option (List String)
deriving DecidableEq, Repr

/-- A decoded Pillow image, reduced to the attributes the code inspects. -/
structure PILImage where
  width : Nat
  height : Nat
  format : String
  isAnimated : Bool
deriving DecidableEq, Repr

/-- The Pillow oracle: `decode` models `Image.open(...)/.load()` (`none` means
they raise), `resize` models the `reduce`/`thumbnail` pipeline applied to
over-sized images (float-based resampling arithmetic is abstracted), `save`
models re-encoding to the given format. -/
structure PillowModel where
  decode : Bytes → Option PILImage
  resize : PILImage → PILImage
  save : String → PILImage → Bytes

/-- Result of `optimize_and_get_details`: either `(mime, ext, data, None)` or
`(None, None, None, error)`. -/
inductive OptResult where
  | ok (mime ext : String) (data : Bytes)
  | err (msg : String)
deriving DecidableEq, Repr

/-- `BaseImageProcessor.optimize_and_get_details`
(src/epub_downloader/core/image_processor.py lines 55-123), with
`HAS_PILLOW = True`.  Payloads under 12 KiB are returned unvalidated; larger
payloads are decoded, rejected as tracking pixels when either dimension is
below 20, downscaled when a dimension exceeds `MAX_IMAGE_DIMENSION`, and
re-encoded according to the source format. -/
def optimize_and_get_details (px : PillowModel) (url : String)
    (contentTypeHeader : Option String) (data : Bytes) : OptResult :=
  if data.isEmpty then .err "No Data"
  else
    let content_type := contentTypeOf contentTypeHeader
    if data.length < 12 * 1024 then
      let ct := if content_type = "" then (guess_type url).getD "application/octet-stream"
                else content_type
      let ext := (guess_extension ct).getD ".img"
      .ok ct ext data
    else
      match px.decode data with
      | none => .err "Optimization Error"
      | some img0 =>
        if img0.width < 20 ∨ img0.height < 20 then .err "Tracking Pixel"
        else
          let img := if MAX_IMAGE_DIMENSION < img0.width ∨ MAX_IMAGE_DIMENSION < img0.height
                     then px.resize img0 else img0
          if img.format = "GIF" ∧ img.isAnimated then .ok "image/gif" ".gif" (px.save "GIF" img)
          else if img.format = "PNG" ∧ data.length < 200 * 1024 then
            .ok "image/png" ".png" (px.save "PNG" img)
          else if img.format = "WEBP" then .ok "image/webp" ".webp" (px.save "WEBP" img)
          else .ok "image/jpeg" ".jpg" (px.save "JPEG" img)

/-- `BaseImageProcessor.is_junk` (src/epub_downloader/core/image_processor.py
lines 189-205). -/
def ImageProcessor_is_junk (url : String) : Bool :=
  if url = "" then true
  else if strStartsWith url "data:" then true
  else
    let lower_url := strLower url
    ["spacer", "1x1", "transparent", "gray.gif", "pixel.gif",
     "placeholder", "loader", "blank.gif", "grey-placeholder", "gray-placeholder",
     "arc-authors", "author-bio", "avatar"].any (fun k => containsSub lower_url k)

/-- `ForumImageProcessor.is_junk` (src/epub_downloader/core/image_processor.py
lines 791-804). -/
def ForumImageProcessor_is_junk (url : String) : Bool :=
  if url = "" then true
  else if strStartsWith url "data:" ∨ strStartsWith url "view-source:" then true
  else
    let lower_url := strLower url
    ["spacer", "1x1", "transparent", "gray.gif", "pixel.gif",
     "placeholder", "loader", "blank.gif", "reaction_id=", "/react?",
     "reactions/emojione"].any (fun k => containsSub lower_url k)

/-- Stable insertion (after existing entries of equal width) used to model
Python's stable `list.sort(key=..., reverse=True)`. -/
def insertByWidthDesc (x : Int × String) : List (Int × String) → List (Int × String)
  | [] => [x]
  | y :: rest => if y.fst < x.fst then x :: y :: rest else y :: insertByWidthDesc x rest

def sortByWidthDesc (l : List (Int × String)) : List (Int × String) :=
  l.foldl (fun acc x => insertByWidthDesc x acc) []

/-- Python `part.split()`: split on whitespace runs, dropping empty pieces. -/
def splitWsGo : List Char → List Char → List String
  | acc, [] => if acc = [] then [] else [acc.reverse.asString]
  | acc, c :: rest =>
    if isPyWhitespace c then
      if acc = [] then splitWsGo [] rest
      else acc.reverse.asString :: splitWsGo [] rest
    else splitWsGo (c :: acc) rest

def splitWs (s : String) : List String := splitWsGo [] s.toList

/-- `BaseImageProcessor.parse_srcset` (src/epub_downloader/core/image_processor.py
lines 207-228): comma-separated entries, each `url [NNNw]` (split on single
spaces), stably sorted by declared width, descending; a missing or unparsable
width counts as 0. -/
def parse_srcset (srcset_str : String) : List String :=
  if srcset_str = "" then []
  else
    let candidates := (splitAll srcset_str ",").filterMap (fun p0 =>
      let p := strStrip p0
      if p = "" then none
      else
        let sub := splitAll p " "
        let url := sub.headD ""
        let width : Int :=
          if 1 < sub.length then
            let tok := sub.getD 1 ""
            if strEndsWith tok "w" then ((tok.toList.dropLast.asString).toInt?).getD 0 else 0
          else 0
        some (width, url))
    (sortByWidthDesc candidates).map (fun c => c.snd)

/-- `BaseImageProcessor.parse_srcset_with_width`
(src/epub_downloader/core/image_processor.py lines 230-248): like
`parse_srcset` but splitting each entry on whitespace runs and returning the
`(width, url)` pairs. -/
def parse_srcset_with_width (srcset_str : String) : List (Int × String) :=
  if srcset_str = "" then []
  else
    sortByWidthDesc ((splitAll srcset_str ",").filterMap (fun part0 =>
      let part := strStrip part0
      if part = "" then none
      else
        let ws := splitWs part
        let url_part := ws.headD ""
        let width : Int :=
          match ws.drop 1 with
          | [] => 0
          | tok :: _ =>
            if strEndsWith tok "w" then ((tok.toList.dropLast.asString).toInt?).getD 0 else 0
        some (width, url_part)))

/-- Site profile, reduced to the single field the modelled code paths read. -/
structure SiteProfile where
  image_proxy_pattern : Option String
deriving DecidableEq, Repr

/-- Does `re.search(r'\.(jpe?g|png|webp|gif|svg)$', path, re.IGNORECASE)`
succeed? -/
def hasProxyImageExt (path : String) : Bool :=
  let lower := strLower path
  [".jpg", ".jpeg", ".png", ".webp", ".gif", ".svg"].any (fun e => strEndsWith lower e)

/-- `ImageProcessor._extract_origin_from_proxy`
(src/epub_downloader/core/image_processor.py lines 399-416).  Python's
`(parsed.path or parsed.netloc)` selects the path when it is nonempty and the
netloc otherwise. -/
def extract_origin_from_proxy (url : String) (profile : Option SiteProfile) :
    Option String :=
  let parsed := urlparse url
  let qs := parse_qs parsed.query
  let fromQs := ((qsGet qs "src").orElse (fun _ => qsGet qs "url")).orElse
    (fun _ => qsGet qs "original")
  let pathOrNetloc := if parsed.path = "" then parsed.netloc else parsed.path
  let profilePatternHit : Bool :=
    match profile with
    | some pr =>
      match pr.image_proxy_pattern with
      | some pat => !(pat == "") && containsSub parsed.path pat
      | none => false
    | none => false
  if profilePatternHit then fromQs
  else if containsSub parsed.path "imrs.php" ∨ containsSub pathOrNetloc "resizer" ∨
      containsSub pathOrNetloc "proxy" then fromQs
  else if parsed.netloc ≠ "" ∧
      (["w", "q", "fit", "h", "fm"].any (fun k => (qsGet qs k).isSome)) then
    if hasProxyImageExt parsed.path then some (rebuildWithoutQuery parsed) else none
  else none


/-! ## Generic image resolution: `ImageProcessor.process_images`
(src/epub_downloader/core/image_processor.py lines 542-742)

The model covers the per-`<img>`-tag task `_process_tag` (lines 566-733):
candidate selection, the existing-asset check, the bounded fetch loop and
asset minting.  DOM rewriting (`wrap_in_img_block`, caption handling,
`decompose`) has no effect on the asset list and is reflected only in the
result constructor.  `ImageProcessor.fetch_image_data` (referer rotation,
the Wikimedia special case and the `requests` fallback) is abstracted as the
oracle `fetchImg`, returning the Content-Type header and body on success;
each call is recorded.  The wall-clock budget check
`asyncio.get_event_loop().time() - started > IMG_MAX_PER_IMAGE_SEC` is the
oracle `timeOver` (real time is not representable); the claims hold for every
value of this oracle. -/

/-- The `<img>` inside a `figure[data-testid="lede-image"]` ancestor, when
present (lines 641-652); its attributes as read by the source. -/
structure LedeTag where
  src : Option String
  data_src : Option String
  srcset : Option String
  data_srcset : Option String
deriving DecidableEq, Repr

/-- The attributes of one `<img>` tag as read by `_process_tag`;
`cls_is_epub` is the `img_tag.get('class') == ['epub-image']` guard. -/
structure GTag where
  src : Option String
  srcset : Option String
  data_src : Option String
  data_srcset : Option String
  cls_is_epub : Bool
  lede : Option LedeTag
deriving DecidableEq, Repr

structure GenCtx where
  fetchImg : String → Option (Option String × Bytes)
  px : PillowModel
  hashFn : String → Nat
  timeOver : Nat → Bool
  profile : Option SiteProfile

inductive GenResult where
  | skipped
  | removed
  | reused (a : ImageAsset)
  | minted (a : ImageAsset)
  | failed
deriving DecidableEq, Repr

/-- The resolved asset, when the tag resolved to one. -/
def GenResult.assetOf : GenResult → Option ImageAsset
  | .reused a => some a
  | .minted a => some a
  | _ => none

structure GenRun where
  assets : List ImageAsset
  fetched : List String
  result : GenResult
deriving DecidableEq, Repr

/-- `_add_candidate` (lines 629-637): skip falsy/junk URLs, deduplicate,
prepend or append. -/
def add_candidate (candidate_urls : List String) (u : Option String) (prepend : Bool) :
    List String :=
  match u with
  | none => candidate_urls
  | some u =>
    if u = "" ∨ ImageProcessor_is_junk u then candidate_urls
    else if u ∈ candidate_urls then candidate_urls
    else if prepend then u :: candidate_urls
    else candidate_urls ++ [u]

/-- The Washington-Post srcset pre-seed (lines 586-593): the first srcset
attribute containing the `imrs.php` proxy pattern with a nonempty parse
supplies an initial `final_src` (and a dead `wapo_origin_seed`). -/
def wapoSeed (profile : Option SiteProfile) :
    List (Option String) → Option String × Option String
  | [] => (none, none)
  | none :: rest => wapoSeed profile rest
  | some s :: rest =>
    if s ≠ "" ∧ containsSub s "washingtonpost.com/wp-apps/imrs.php" then
      match parse_srcset s with
      | [] => wapoSeed profile rest
      | h :: _ => (some h, extract_origin_from_proxy h profile)
    else wapoSeed profile rest

/-- `[v]` when the attribute is present and truthy, else `[]`. -/
def optNE : Option String → List String
  | some s => if s = "" then [] else [s]
  | none => []

/-- The `final_src` selection (lines 595-603): a non-junk `src` wins, else the
first non-junk candidate, else the wapo seed (the source's final
`if not final_src and src and not is_junk(src)` line is unreachable: its
condition contradicts the branch it lives in). -/
def select_final_src (tag : GTag) (wapo : Option String) (candidates : List String) :
    Option String :=
  let fallbackSel :=
    match candidates.find? (fun c => ! ImageProcessor_is_junk c) with
    | some c => some c
    | none => wapo
  match tag.src with
  | some s => if s ≠ "" ∧ ¬ ImageProcessor_is_junk s then some s else fallbackSel
  | none => fallbackSel

/-- Candidate fetch loop (lines 684-698): try the first `IMG_MAX_CANDIDATES`
candidates unless the time budget has expired, recording each fetch, until one
fetches and validates. Returns the recorded fetches and, on success,
`(mime, ext, data, effective_url)`. -/
def try_candidates (ctx : GenCtx) :
    List String → Nat → List String × Option (String × String × Bytes × String)
  | [], _ => ([], none)
  | cand :: rest, idx =>
    if ctx.timeOver idx then ([], none)
    else
      match ctx.fetchImg cand with
      | none =>
        let r := try_candidates ctx rest (idx + 1)
        (cand :: r.fst, r.snd)
      | some (ct, data) =>
        if data.isEmpty then
          let r := try_candidates ctx rest (idx + 1)
          (cand :: r.fst, r.snd)
        else
          match optimize_and_get_details ctx.px cand ct data with
          | .err _ =>
            let r := try_candidates ctx rest (idx + 1)
            (cand :: r.fst, r.snd)
          | .ok mime ext d2 => ([cand], some (mime, ext, d2, cand))

/-- The filename candidate for collision counter `n` (lines 713-717). -/
def nameAt (fname_base ext : String) (n : Nat) : String :=
  if n = 0 then IMAGE_DIR_IN_EPUB ++ "/" ++ fname_base ++ ext
  else IMAGE_DIR_IN_EPUB ++ "/" ++ fname_base ++ "_" ++ toString n ++ ext

/-- The collision loop: the first filename (counting up) not already taken;
among `taken.length + 1` candidates one is always free. -/
def freeName (taken : List String) (fname_base ext : String) : String :=
  match (List.range (taken.length + 1)).find?
      (fun n => ! (taken.contains (nameAt fname_base ext n))) with
  | some n => nameAt fname_base ext n
  | none => nameAt fname_base ext (taken.length + 1)

/-- One srcset attribute's contribution to the candidate list
(lines 662-676). -/
def srcset_candidates_step (ctx : GenCtx) (base_url : String)
    (cu : List String) (srcset_str : String) : List String :=
  (parse_srcset_with_width srcset_str).foldl (fun cu2 wc =>
    let cand_full := urljoin base_url wc.snd
    let cu3 := add_candidate cu2 (some cand_full) (decide ((600 : Int) ≤ wc.fst))
    let cu4 := match extract_origin_from_proxy cand_full ctx.profile with
      | some o => add_candidate cu3 (some o) true
      | none => cu3
    let known_proxy : Bool :=
      (containsSub cand_full "washingtonpost.com" &&
        containsSub cand_full "/wp-apps/imrs.php") ||
      (match ctx.profile with
       | some pr =>
         match pr.image_proxy_pattern with
         | some pat => !(pat == "") && containsSub cand_full pat
         | none => false
       | none => false)
    if ¬ known_proxy ∧ containsSub cand_full "?" then
      add_candidate cu4 (some (beforeFirst cand_full "?")) false
    else cu4) cu

/-- The full candidate-list construction for one tag (lines 628-681), given
the already-computed `full_url`. -/
def build_candidate_urls (ctx : GenCtx) (base_url full_url : String) (tag : GTag) :
    List String :=
  let curls : List String := []
  let origin_src := extract_origin_from_proxy full_url ctx.profile
  let curls := match tag.lede with
    | none => curls
    | some l =>
      let curls := match l.src with
        | some v => if v ≠ "" then add_candidate curls (some (urljoin base_url v)) true else curls
        | none => curls
      let curls := match l.data_src with
        | some v => if v ≠ "" then add_candidate curls (some (urljoin base_url v)) true else curls
        | none => curls
      let curls := match l.srcset with
        | some v =>
          if v ≠ "" then
            (parse_srcset_with_width v).foldl
              (fun cu wu => add_candidate cu (some (urljoin base_url wu.snd)) true) curls
          else curls
        | none => curls
      match l.data_srcset with
        | some v =>
          if v ≠ "" then
            (parse_srcset_with_width v).foldl
              (fun cu wu => add_candidate cu (some (urljoin base_url wu.snd)) true) curls
          else curls
        | none => curls
  let curls := match origin_src with
    | some o => add_candidate curls (some o) true
    | none => curls
  let curls :=
    if ¬ ImageProcessor_is_junk full_url then
      let c1 := add_candidate curls (some full_url) true
      if containsSub full_url "?" then add_candidate c1 (some (beforeFirst full_url "?")) false
      else c1
    else curls
  let curls := (([tag.data_srcset, tag.srcset].filterMap id).filter (fun s => s ≠ "")).foldl
    (srcset_candidates_step ctx base_url) curls
  curls.foldl (fun cu u =>
    match extract_origin_from_proxy u ctx.profile with
    | some o => add_candidate cu (some o) true
    | none => cu) curls

/-- `ImageProcessor.process_images`'s per-tag task `_process_tag`
(lines 566-733), threading the per-document asset list. -/
def process_tag_generic (ctx : GenCtx) (base_url : String) (assets : List ImageAsset)
    (tag : GTag) : GenRun :=
  if tag.cls_is_epub ∨
      strStartsWith (match tag.src with | some s => s | none => "None") IMAGE_DIR_IN_EPUB then
    ⟨assets, [], .skipped⟩
  else
    let candidates :=
      optNE tag.data_src
      ++ (match tag.data_srcset with | some s => parse_srcset s | none => [])
      ++ (match tag.srcset with | some s => parse_srcset s | none => [])
    let wapo := (wapoSeed ctx.profile [tag.data_srcset, tag.srcset]).fst
    let final_src := select_final_src tag wapo candidates
    let junkReturn : GenRun :=
      if (match tag.src with
          | some s => decide (s ≠ "") && ImageProcessor_is_junk s
          | none => false) &&
          ! (candidates.any (fun c => ! ImageProcessor_is_junk c)) then
        ⟨assets, [], .removed⟩
      else ⟨assets, [], .failed⟩
    match final_src with
    | none => junkReturn
    | some fs =>
      if fs = "" ∨ strStartsWith fs "data:" ∨ strStartsWith fs "mailto:" ∨
          strStartsWith fs "javascript:" then junkReturn
      else
        let full_url := urljoin base_url (strStrip fs)
        let full_url := if containsSub base_url "web.archive.org" ∧
            strStartsWith full_url "http://"
          then "https://" ++ full_url.drop 7 else full_url
        match assets.find? (fun a => a.original_url == full_url) with
        | some a => ⟨assets, [], .reused a⟩
        | none =>
          let curls := build_candidate_urls ctx base_url full_url tag
          let run := try_candidates ctx (curls.take IMG_MAX_CANDIDATES) 0
          match run.snd with
          | none => ⟨assets, run.fst, .failed⟩
          | some (mime, ext, final_data, effective_url) =>
            let alt_urls := curls.filter (fun u => u ≠ "")
            let fname_base :=
              sanitize_filename (splitextStem (basename (urlparse effective_url).path))
            let fname_base :=
              if fname_base.length < 3 then "img_" ++ toString (ctx.hashFn effective_url)
              else fname_base
            let fname := freeName (assets.map (fun a => a.filename)) fname_base ext
            let uid := "img_" ++ toString (ctx.hashFn fname)
            let asset : ImageAsset :=
              ⟨uid, fname, mime, final_data,
               (if effective_url = "" then full_url else effective_url),
               (if alt_urls.isEmpty then none else some alt_urls)⟩
            ⟨assets ++ [asset], run.fst, .minted asset⟩

/-- Sequential processing of a list of tags (the source gathers the per-tag
tasks; their mutations of `book_assets` are modelled sequentially, which is
the serialized execution §5 of the spec requires of the check-then-append
step). -/
def process_tags_generic (ctx : GenCtx) (base_url : String) :
    List ImageAsset → List GTag → List ImageAsset × List String × List GenResult
  | assets, [] => (assets, [], [])
  | assets, tag :: rest =>
    let run := process_tag_generic ctx base_url assets tag
    let next := process_tags_generic ctx base_url run.assets rest
    (next.fst, run.fetched ++ next.snd.fst, run.result :: next.snd.snd)


/-! ## Forum image resolution: `ForumImageProcessor.process_images`
(src/epub_downloader/core/image_processor.py lines 896-1214)

The model covers the preload/URL/hash maps built over `book_assets`
(lines 897-955) and the per-tag task `_process_tag` (lines 975-1208) with
`preloaded_assets = []` (no driver-supplied hints; the claims do not involve
them, and with an empty hint list the `preload_match` block, lines 1091-1155,
is dead).  `ForumImageProcessor.fetch_image_data` is abstracted as an oracle
from `(attach_target, viewer_url)` to an optional `(Content-Type, bytes)`
response; each call is recorded.  `hashlib.sha1` keys are modelled by the
hashed bytes themselves.  Python dict insertion is modelled by prepending to
an association list searched from the front (latest insertion wins, as for a
dict overwrite). -/

def mapInsert (m : List (String × ImageAsset)) (k : String) (a : ImageAsset) :
    List (String × ImageAsset) := (k, a) :: m

def mapLookup (m : List (String × ImageAsset)) (k : String) : Option ImageAsset :=
  (m.find? (fun p => p.fst == k)).map (fun p => p.snd)

def hashInsert (m : List (Bytes × ImageAsset)) (k : Bytes) (a : ImageAsset) :
    List (Bytes × ImageAsset) := (k, a) :: m

def hashLookup (m : List (Bytes × ImageAsset)) (k : Bytes) : Option ImageAsset :=
  (m.find? (fun p => p.fst == k)).map (fun p => p.snd)

/-- `add_to_map` (lines 910-931): register a URL, its normalized form,
slash-stripped variants, and for attachment paths the query-stripped base. -/
def add_to_map (m : List (String × ImageAsset)) (url_val : String) (asset : ImageAsset) :
    List (String × ImageAsset) :=
  if url_val = "" then m
  else
    let norm := normalize_url_for_matching url_val
    let m := mapInsert m url_val asset
    let m := if norm ≠ "" then mapInsert m norm asset else m
    let m := if strEndsWith url_val "/" then mapInsert m (rstripChar '/' url_val) asset else m
    let m := if norm ≠ "" ∧ strEndsWith norm "/" then mapInsert m (rstripChar '/' norm) asset
             else m
    let parsed := urlparse url_val
    if containsSub parsed.path "/attachments/" then
      let b := beforeFirst url_val "?"
      let m := mapInsert m b asset
      let nb := normalize_url_for_matching b
      if nb ≠ "" then mapInsert m nb asset else m
    else m

/-- Keep the first occurrence of each element (Python `dict.fromkeys` order,
and the per-asset `set()` of URLs — whose iteration order only affects
redundant inserts of the same asset). -/
def dedupFirst (l : List String) : List String :=
  l.foldl (fun acc u => if u ∈ acc then acc else acc ++ [u]) []

structure ForumState where
  assets : List ImageAsset
  preload : List (String × ImageAsset)
  hashes : List (Bytes × ImageAsset)
deriving Repr

/-- The map-building prologue of `ForumImageProcessor.process_images`
(lines 933-945) over the incoming `book_assets`. -/
def build_forum_state (book_assets : List ImageAsset) : ForumState :=
  book_assets.foldl (fun st asset =>
    let urls := dedupFirst ((if asset.original_url = "" then [] else [asset.original_url])
      ++ (asset.alt_urls.getD []))
    let pm := urls.foldl (fun m u => add_to_map m u asset) st.preload
    let hm := if asset.content = [] then st.hashes
              else hashInsert st.hashes asset.content asset
    ⟨st.assets, pm, hm⟩) ⟨book_assets, [], []⟩

/-- Attributes of one forum `<img>` tag; `link_href` is the `href` of the
enclosing `<a>`, when any. -/
structure FTag where
  src : Option String
  srcset : Option String
  data_src : Option String
  data_url : Option String
  data_lazy : Option String
  data_srcset : Option String
  link_href : Option String
deriving DecidableEq, Repr

structure ForumCtx where
  fetchF : String → Option String → Option (Option String × Bytes)
  px : PillowModel
  hashFn : String → Nat

inductive FResult where
  | skipped
  | reused (a : ImageAsset)
  | minted (a : ImageAsset)
  | failed
deriving DecidableEq, Repr

def FResult.assetOf : FResult → Option ImageAsset
  | .reused a => some a
  | .minted a => some a
  | _ => none

/-- Does `re.search(r'\.(jpe?g|png|webp|gif|bmp)(\?|$)', url, re.IGNORECASE)`
succeed?  The extension must be followed by `?` or the end of the string. -/
def has_forum_image_extension (url : String) : Bool :=
  let lower := strLower url
  [".jpg", ".jpeg", ".png", ".webp", ".gif", ".bmp"].any (fun e =>
    strEndsWith lower e ∨ containsSub lower (e ++ "?"))

/-- Auxiliary: in a run of non-`/` characters, is there a `.` preceded by at
least one character and followed directly by a digit? -/
def scanDotDigit : List Char → Bool
  | [] => false
  | '.' :: d :: rest => d.isDigit || scanDotDigit (d :: rest)
  | _ :: rest => scanDotDigit rest

/-- Does `re.search(r'/attachments/[^/]+\.\d+/?', s)` succeed?  After some
occurrence of `/attachments/` the maximal run of non-`/` characters must
contain, after at least one leading character, a dot followed by a digit. -/
def matches_attachment_viewer (s : String) : Bool :=
  match splitAll s "/attachments/" with
  | [] => false
  | _ :: rest => rest.any (fun after =>
      match (after.toList.takeWhile (fun c => ¬ (c = '/'))) with
      | [] => false
      | _ :: run => scanDotDigit run)

/-- `final_src` selection for forum tags (lines 987-1008). -/
def forum_select_src (tag : FTag) : Option String :=
  let fallbackSel :=
    let candidates :=
      optNE tag.data_src ++ optNE tag.data_lazy ++ optNE tag.data_url
      ++ (match tag.data_srcset with | some s => parse_srcset s | none => [])
      ++ (match tag.srcset with | some s => parse_srcset s | none => [])
      ++ optNE tag.link_href
    match candidates.find? (fun c => ! ForumImageProcessor_is_junk c) with
    | some c => some c
    | none => match tag.src with | some s => if s = "" then none else some s | none => none
  match tag.src with
  | some s => if s ≠ "" ∧ ¬ ForumImageProcessor_is_junk s then some s else fallbackSel
  | none => fallbackSel

/-- The preload-map check (lines 1049-1058): first exact, then normalized, per
URL in order. -/
def forum_match (pm : List (String × ImageAsset)) : List String → Option ImageAsset
  | [] => none
  | u :: rest =>
    match mapLookup pm u with
    | some a => some a
    | none =>
      let nu := normalize_url_for_matching u
      if nu ≠ "" then
        match mapLookup pm nu with
        | some a => some a
        | none => forum_match pm rest
      else forum_match pm rest

/-- `_url_same` (lines 1068-1071). -/
def url_same (lhs rhs : String) : Bool :=
  let nl := normalize_url_for_matching lhs
  let nr := normalize_url_for_matching rhs
  nl ≠ "" ∧ nr ≠ "" ∧ nl = nr

/-- `_matches_asset` (lines 1073-1082); the Python candidate list may contain
`None` entries, for which `_url_same` is always false, so they are dropped. -/
def matches_asset (full_url : String) (viewer_url attachment_base : Option String)
    (a : ImageAsset) : Bool :=
  let cands := full_url :: (viewer_url.toList ++ attachment_base.toList)
  let asset_urls := a.original_url :: ((a.alt_urls.getD []).filter (fun u => u ≠ ""))
  cands.any (fun c => asset_urls.any (fun au => url_same c au))


/-- One recorded forum fetch: `(attach_target, viewer_url)`. -/
abbrev ForumFetch := String × Option String

/-- The fetch/validate/dedup/mint tail of the forum per-tag task
(lines 1157-1205), entered when no existing Asset matched by URL. -/
def forum_fetch_resolve (ctx : ForumCtx) (st : ForumState) (full_url : String)
    (viewer_url attachment_base : Option String) (attach_target : String) :
    ForumState × List ForumFetch × FResult :=
  match ctx.fetchF attach_target viewer_url with
  | none => (st, [(attach_target, viewer_url)], .failed)
  | some (ct, data) =>
    match optimize_and_get_details ctx.px full_url ct data with
    | .err _ => (st, [(attach_target, viewer_url)], .failed)
    | .ok mime ext final_data =>
      match (if final_data ≠ [] then hashLookup st.hashes final_data else none) with
      | some a => (st, [(attach_target, viewer_url)], .reused a)
      | none =>
        let alt0 :=
          [full_url]
          ++ (if containsSub full_url "?" then [beforeFirst full_url "?"] else [])
          ++ (match viewer_url with
              | some v => [v] ++ (if containsSub v "?" then [beforeFirst v "?"] else [])
              | none => [])
          ++ attachment_base.toList
        let alt_urls := dedupFirst (alt0.filter (fun u => u ≠ ""))
        let fname_base :=
          sanitize_filename (splitextStem (basename (urlparse full_url).path))
        let fname_base :=
          if fname_base.length < 3 then "img_" ++ toString (ctx.hashFn full_url)
          else fname_base
        let fname := freeName (st.assets.map (fun a => a.filename)) fname_base ext
        let uid := "img_" ++ toString (ctx.hashFn fname)
        let asset : ImageAsset :=
          ⟨uid, fname, mime, final_data, full_url, some alt_urls⟩
        let hashes := if final_data ≠ [] then hashInsert st.hashes final_data asset
                      else st.hashes
        let preload := alt_urls.foldl (fun m u => add_to_map m u asset) st.preload
        (⟨st.assets ++ [asset], preload, hashes⟩,
         [(attach_target, viewer_url)], .minted asset)

/-- `ForumImageProcessor.process_images`'s per-tag task `_process_tag`
(lines 975-1208) with `preloaded_assets = []`, threading the forum state. -/
def process_tag_forum (ctx : ForumCtx) (base_url : String) (st : ForumState)
    (tag : FTag) : ForumState × List ForumFetch × FResult :=
  match forum_select_src tag with
  | none => (st, [], .skipped)
  | some fs0 =>
    if fs0 = "" ∨ strStartsWith fs0 "data:" ∨ strStartsWith fs0 "mailto:" ∨
        strStartsWith fs0 "javascript:" then (st, [], .skipped)
    else
      let fs := if strStartsWith fs0 "view-source:" then fs0.drop 12 else fs0
      let lh : Option String := match tag.link_href with
        | some h => some (if strStartsWith h "view-source:" then h.drop 12 else h)
        | none => none
      let full_url := urljoin base_url (strStrip fs)
      let full_url := if containsSub base_url "web.archive.org" ∧
          strStartsWith full_url "http://"
        then "https://" ++ full_url.drop 7 else full_url
      if containsSub full_url "/avatar" ∨ containsSub full_url "/avatars/" then
        (st, [], .skipped)
      else if ¬ has_forum_image_extension full_url ∧
          ¬ containsSub full_url "attachments" ∧ ¬ containsSub full_url "image" then
        (st, [], .skipped)
      else
        let attachment_base : Option String :=
          if containsSub full_url "/attachments/" then some (beforeFirst full_url "?")
          else none
        let viewer_url : Option String := match lh with
          | some h =>
            if h ≠ "" ∧ matches_attachment_viewer h then some (urljoin base_url (strStrip h))
            else attachment_base
          | none => attachment_base
        let attach_target := viewer_url.getD full_url
        let urls_to_check := full_url :: (viewer_url.toList ++ attachment_base.toList)
        match forum_match st.preload urls_to_check with
        | some a => (st, [], .reused a)
        | none =>
          match st.assets.find? (matches_asset full_url viewer_url attachment_base) with
          | some a => (st, [], .reused a)
          | none => forum_fetch_resolve ctx st full_url viewer_url attachment_base attach_target

/-- Sequential processing of a list of forum tags (as for the generic
processor, the concurrent gather's mutations of the shared maps are modelled
sequentially). -/
def process_tags_forum (ctx : ForumCtx) (base_url : String) :
    ForumState → List FTag → ForumState × List ForumFetch × List FResult
  | st, [] => (st, [], [])
  | st, tag :: rest =>
    let run := process_tag_forum ctx base_url st tag
    let next := process_tags_forum ctx base_url run.fst rest
    (next.fst, run.snd.fst ++ next.snd.fst, run.snd.snd :: next.snd.snd)


/-! ## `_enrich_comment_tree` (src/dala/utils/formatting.py lines 10-28)

A comment node has an id, the four derived navigation fields, and an ordered
list of children (`children_data`).  Ids are the strings the drivers store
(`str(...)` of the native id); `str(node.get('id'))` is therefore the stored
id itself.  Derived fields use `Option String`, `none` meaning the key is
unset (Python reads them with `.get`, which treats a missing key and `None`
alike).  The Python code mutates dictionaries in place; the model is the
corresponding pure transformation on trees (a tree value cannot alias, which
matches the caller contract of non-cyclic input). -/

inductive CNode where
  | mk (id : String) (parent_id root_id next_sibling_id next_root_id : Option String)
       (children : List CNode)

def CNode.id : CNode → String
  | .mk i _ _ _ _ _ => i

def CNode.parent_id : CNode → Option String
  | .mk _ p _ _ _ _ => p

def CNode.root_id : CNode → Option String
  | .mk _ _ r _ _ _ => r

def CNode.next_sibling_id : CNode → Option String
  | .mk _ _ _ s _ _ => s

def CNode.next_root_id : CNode → Option String
  | .mk _ _ _ _ q _ => q

def CNode.children : CNode → List CNode
  | .mk _ _ _ _ _ c => c

/-- The inner `recurse(nodes, parent_id, root_id, next_root_id)` (lines 15-23):
set `parent_id`, `root_id`, `next_root_id` on every node of the list, set
`next_sibling_id` on every node but the last (the last keeps its stored
value), and recurse into nonempty children with the parent's id, with
`root_id or str(node.get('id'))` (the id substitutes only when `root_id` is
the empty string), and with the same `next_root_id`. -/
def enrichChildren (nodes : List CNode) (p r : String) (q : Option String) : List CNode :=
  match nodes with
  | [] => []
  | CNode.mk i _pi _ri ns _nr cs :: rest =>
    let nsib : Option String :=
      match rest with
      | [] => ns
      | m :: _ => some m.id
    CNode.mk i (some p) (some r) nsib q
      (if cs.isEmpty then cs else enrichChildren cs i (if r = "" then i else r) q)
    :: enrichChildren rest p r q
termination_by sizeOf nodes

/-- The first loop (lines 13-14): set `next_root_id` of every root but the
last to the id of the following root. -/
def setNextRoots : List CNode → List CNode
  | [] => []
  | a :: rest =>
    match rest with
    | [] => [a]
    | s :: _ =>
      (match a with
       | CNode.mk i pi ri ns _nr cs => CNode.mk i pi ri ns (some s.id) cs)
      :: setNextRoots rest

/-- One iteration of the second loop (lines 24-27): enrich a root's nonempty
children with `parent_id = root_id = str(root.get('id'))` and the root's
`next_root_id` (set by the first loop for all but the last root). -/
def enrichRoot : CNode → CNode
  | CNode.mk i pi ri ns nr cs =>
    CNode.mk i pi ri ns nr (if cs.isEmpty then cs else enrichChildren cs i i nr)

/-- The second loop over all roots. -/
def enrichRootChildren (roots : List CNode) : List CNode :=
  roots.map enrichRoot

/-- `_enrich_comment_tree` (src/dala/utils/formatting.py lines 10-28). -/
def enrich_comment_tree (roots : List CNode) : List CNode :=
  if roots.isEmpty then []
  else enrichRootChildren (setNextRoots roots)

/-! ### Decidable statements of the claimed forest properties -/

/-- Within one children list: every node but the last has `next_sibling_id`
pointing at the id of the following sibling, and the last has it unset. -/
def sibListOK : List CNode → Bool
  | [] => true
  | n :: rest =>
    match rest with
    | [] => n.next_sibling_id = none
    | m :: _ => n.next_sibling_id = some m.id && sibListOK rest

/-- `sibListOK` holds for the children list of every node of the forest. -/
def sibForestOK : List CNode → Bool
  | [] => true
  | CNode.mk _ _ _ _ _ cs :: rest => sibListOK cs && sibForestOK cs && sibForestOK rest
termination_by l => sizeOf l

/-- Every node of the forest (at any depth) has `root_id = some rid`. -/
def rootedAll (rid : String) : List CNode → Bool
  | [] => true
  | CNode.mk _ _ ri _ _ cs :: rest =>
    ri = some rid && rootedAll rid cs && rootedAll rid rest
termination_by l => sizeOf l

/-- Every node strictly below each root has `root_id` equal to that root's
id. -/
def rootIdsOK : List CNode → Bool
  | [] => true
  | r :: rest => rootedAll r.id r.children && rootIdsOK rest

/-- Every root but the last has `next_root_id` pointing at the id of the
following root; only the last root lacks it. -/
def nextRootsOK : List CNode → Bool
  | [] => true
  | r :: rest =>
    match rest with
    | [] => r.next_root_id = none
    | s :: _ => r.next_root_id = some s.id && nextRootsOK rest

/-- The conjunction claimed for an enriched forest (C2). -/
def forestNavOK (f : List CNode) : Bool :=
  sibForestOK f && rootIdsOK f && nextRootsOK f

/-- All four derived fields are unset everywhere (the pre-enrichment state of
a freshly normalized forest, §3 of the spec). -/
def derivedUnset : List CNode → Bool
  | [] => true
  | CNode.mk _ pi ri ns nr cs :: rest =>
    pi = none && ri = none && ns = none && nr = none &&
    derivedUnset cs && derivedUnset rest
termination_by l => sizeOf l

/-- Every id in the forest is a nonempty string. -/
def idsNonEmpty : List CNode → Bool
  | [] => true
  | CNode.mk i _ _ _ _ cs :: rest => !(i == "") && idsNonEmpty cs && idsNonEmpty rest
termination_by l => sizeOf l


/-! ### Structural lemmas about enrichment -/

theorem enrichChildren_nil (p r : String) (q : Option String) :
    enrichChildren [] p r q = [] := by
  rw [enrichChildren.eq_def]

theorem enrichChildren_single (i : String) (pi ri ns nr : Option String)
    (cs : List CNode) (p r : String) (q : Option String) :
    enrichChildren [CNode.mk i pi ri ns nr cs] p r q =
      [CNode.mk i (some p) (some r) ns q
        (if cs.isEmpty then cs else enrichChildren cs i (if r = "" then i else r) q)] := by
  rw [enrichChildren.eq_def]; simp only [enrichChildren_nil]

theorem enrichChildren_cons2 (i : String) (pi ri ns nr : Option String)
    (cs : List CNode) (m : CNode) (mrest : List CNode) (p r : String)
    (q : Option String) :
    enrichChildren (CNode.mk i pi ri ns nr cs :: m :: mrest) p r q =
      CNode.mk i (some p) (some r) (some m.id) q
        (if cs.isEmpty then cs else enrichChildren cs i (if r = "" then i else r) q)
      :: enrichChildren (m :: mrest) p r q := by
  rw [enrichChildren.eq_def]

theorem enrichChildren_isEmpty (ns' : List CNode) (p r : String) (q : Option String) :
    (enrichChildren ns' p r q).isEmpty = ns'.isEmpty := by
  match ns' with
  | [] => rw [enrichChildren_nil]
  | CNode.mk i pi ri ns nr cs :: rest =>
    cases rest with
    | nil => rw [enrichChildren_single]; rfl
    | cons m mrest => rw [enrichChildren_cons2]; rfl

theorem enrichChildren_shape (n : CNode) (rest : List CNode) (p r : String)
    (q : Option String) :
    ∃ t tl, enrichChildren (n :: rest) p r q = t :: tl ∧ t.id = n.id := by
  match n with
  | CNode.mk i pi ri ns nr cs =>
    cases rest with
    | nil => exact ⟨_, _, enrichChildren_single i pi ri ns nr cs p r q, rfl⟩
    | cons m mrest => exact ⟨_, _, enrichChildren_cons2 i pi ri ns nr cs m mrest p r q, rfl⟩

theorem enrichChildren_idem (nodes : List CNode) (p r : String) (q : Option String) :
    enrichChildren (enrichChildren nodes p r q) p r q = enrichChildren nodes p r q := by
  match nodes with
  | [] => rw [enrichChildren_nil, enrichChildren_nil]
  | CNode.mk i pi ri ns nr cs :: rest =>
    have ihcs := enrichChildren_idem cs i (if r = "" then i else r) q
    have hchild : (if (if cs.isEmpty then cs else
          enrichChildren cs i (if r = "" then i else r) q).isEmpty then
          (if cs.isEmpty then cs else enrichChildren cs i (if r = "" then i else r) q)
        else
          enrichChildren (if cs.isEmpty then cs
            else enrichChildren cs i (if r = "" then i else r) q) i
            (if r = "" then i else r) q) =
        (if cs.isEmpty then cs else enrichChildren cs i (if r = "" then i else r) q) := by
      by_cases h : cs.isEmpty
      · simp [h]
      · simp [h, enrichChildren_isEmpty, ihcs]
    cases rest with
    | nil => rw [enrichChildren_single, enrichChildren_single, hchild]
    | cons m mrest =>
      have ihrest := enrichChildren_idem (m :: mrest) p r q
      obtain ⟨t, tl, htl, hid⟩ := enrichChildren_shape m mrest p r q
      rw [enrichChildren_cons2, htl, enrichChildren_cons2, hchild, hid, ← htl, ihrest]
termination_by sizeOf nodes


/-- Adjacent roots already satisfy the first loop's postcondition. -/
def nrFixed : List CNode → Bool
  | [] => true
  | a :: rest =>
    match rest with
    | [] => true
    | b :: _ => a.next_root_id = some b.id && nrFixed rest

theorem enrichRoot_id (n : CNode) : (enrichRoot n).id = n.id := by
  cases n; rfl

theorem enrichRoot_next_root_id (n : CNode) :
    (enrichRoot n).next_root_id = n.next_root_id := by
  cases n; rfl

theorem enrichRoot_parent_id (n : CNode) : (enrichRoot n).parent_id = n.parent_id := by
  cases n; rfl

theorem enrichRoot_root_id (n : CNode) : (enrichRoot n).root_id = n.root_id := by
  cases n; rfl

theorem enrichRoot_next_sibling_id (n : CNode) :
    (enrichRoot n).next_sibling_id = n.next_sibling_id := by
  cases n; rfl

theorem enrichRoot_idem (n : CNode) : enrichRoot (enrichRoot n) = enrichRoot n := by
  match n with
  | CNode.mk i pi ri ns nr cs =>
    by_cases h : cs.isEmpty
    · simp [enrichRoot, h]
    · simp [enrichRoot, h, enrichChildren_isEmpty, enrichChildren_idem]

theorem nrFixed_map_enrichRoot (ys : List CNode) :
    nrFixed (ys.map enrichRoot) = nrFixed ys := by
  match ys with
  | [] => rfl
  | [a] => rfl
  | a :: b :: rest =>
    have ih := nrFixed_map_enrichRoot (b :: rest)
    simp only [List.map_cons] at ih ⊢
    rw [nrFixed, nrFixed, enrichRoot_next_root_id, enrichRoot_id, ih]

theorem setNextRoots_head_id (b : CNode) (rest : List CNode) :
    ∃ t tl, setNextRoots (b :: rest) = t :: tl ∧ t.id = b.id := by
  match b, rest with
  | b, [] => exact ⟨b, [], rfl, rfl⟩
  | CNode.mk i pi ri ns nr cs, c :: crest =>
    exact ⟨_, _, rfl, rfl⟩

theorem setNextRoots_of_nrFixed (ys : List CNode) (h : nrFixed ys = true) :
    setNextRoots ys = ys := by
  match ys with
  | [] => rfl
  | [a] => rfl
  | CNode.mk i pi ri ns nr cs :: b :: rest =>
    rw [nrFixed] at h
    simp only [Bool.and_eq_true, decide_eq_true_eq] at h
    rw [setNextRoots, setNextRoots_of_nrFixed (b :: rest) h.2]
    have : nr = some b.id := h.1
    rw [this]

theorem nrFixed_setNextRoots (xs : List CNode) : nrFixed (setNextRoots xs) = true := by
  match xs with
  | [] => rfl
  | [a] => rfl
  | CNode.mk i pi ri ns nr cs :: b :: rest =>
    have ih := nrFixed_setNextRoots (b :: rest)
    obtain ⟨t, tl, htl, hid⟩ := setNextRoots_head_id b rest
    rw [setNextRoots, htl, nrFixed]
    rw [htl] at ih
    simp [CNode.next_root_id, hid, ih]

/-- C3 — `_enrich_comment_tree` is idempotent: applying it twice yields the
same forest (hence identical derived fields) as applying it once. -/
theorem C3_enrich_idempotent (roots : List CNode) :
    enrich_comment_tree (enrich_comment_tree roots) = enrich_comment_tree roots := by
  match roots with
  | [] => rfl
  | x :: xs =>
    have h1 : enrich_comment_tree (x :: xs) = enrichRootChildren (setNextRoots (x :: xs)) := by
      rw [enrich_comment_tree]
      simp
    obtain ⟨t, tl, htl, _⟩ := setNextRoots_head_id x xs
    have h2 : enrichRootChildren (setNextRoots (x :: xs)) =
        enrichRoot t :: tl.map enrichRoot := by
      rw [htl, enrichRootChildren, List.map_cons]
    have h3 : enrich_comment_tree (enrichRoot t :: tl.map enrichRoot) =
        enrichRootChildren (setNextRoots (enrichRoot t :: tl.map enrichRoot)) := by
      rw [enrich_comment_tree]
      simp
    rw [h1, h2, h3, ← List.map_cons, ← htl]
    have h4 : (setNextRoots (x :: xs)).map enrichRoot =
        enrichRootChildren (setNextRoots (x :: xs)) := rfl
    rw [h4, setNextRoots_of_nrFixed _ (by
      rw [enrichRootChildren, nrFixed_map_enrichRoot]
      exact nrFixed_setNextRoots (x :: xs))]
    simp only [enrichRootChildren, List.map_map]
    refine List.map_congr_left (fun a _ => ?_)
    simp [Function.comp, enrichRoot_idem]


/-- `next_sibling_id` unset everywhere (what the sibling-link claim needs of a
pre-enrichment forest). -/
def nsUnset : List CNode → Bool
  | [] => true
  | CNode.mk _ _ _ ns _ cs :: rest => ns = none && nsUnset cs && nsUnset rest
termination_by l => sizeOf l

theorem setNextRoots_single (a : CNode) : setNextRoots [a] = [a] := rfl

theorem setNextRoots_cons2 (a b : CNode) (rest : List CNode) :
    setNextRoots (a :: b :: rest) =
      (match a with
       | CNode.mk i pi ri ns _nr cs => CNode.mk i pi ri ns (some b.id) cs)
      :: setNextRoots (b :: rest) := rfl

theorem derivedUnset_nsUnset (l : List CNode) (h : derivedUnset l = true) :
    nsUnset l = true := by
  match l with
  | [] => simp [nsUnset]
  | CNode.mk i pi ri ns nr cs :: rest =>
    rw [derivedUnset] at h
    simp only [Bool.and_eq_true, decide_eq_true_eq] at h
    obtain ⟨⟨⟨⟨⟨hpi, hri⟩, hns⟩, hnr⟩, hcs⟩, hrest⟩ := h
    rw [nsUnset]
    simp only [Bool.and_eq_true, decide_eq_true_eq]
    exact ⟨⟨hns, derivedUnset_nsUnset cs hcs⟩, derivedUnset_nsUnset rest hrest⟩
termination_by sizeOf l

theorem nsUnset_setNextRoots (xs : List CNode) :
    nsUnset (setNextRoots xs) = nsUnset xs := by
  match xs with
  | [] => rfl
  | [a] => rfl
  | CNode.mk i pi ri ns nr cs :: b :: rest =>
    have ih := nsUnset_setNextRoots (b :: rest)
    rw [setNextRoots_cons2, nsUnset, nsUnset, ih]

theorem idsNonEmpty_setNextRoots (xs : List CNode) :
    idsNonEmpty (setNextRoots xs) = idsNonEmpty xs := by
  match xs with
  | [] => rfl
  | [a] => rfl
  | CNode.mk i pi ri ns nr cs :: b :: rest =>
    have ih := idsNonEmpty_setNextRoots (b :: rest)
    rw [setNextRoots_cons2, idsNonEmpty, idsNonEmpty, ih]


theorem sibListOK_enrichChildren (nodes : List CNode) (p r : String) (q : Option String)
    (h : nsUnset nodes = true) :
    sibListOK (enrichChildren nodes p r q) = true := by
  match nodes with
  | [] => simp [enrichChildren_nil, sibListOK]
  | [CNode.mk i pi ri ns nr cs] =>
    rw [nsUnset] at h
    simp only [Bool.and_eq_true, decide_eq_true_eq] at h
    rw [enrichChildren_single, sibListOK]
    simp [h.1.1, CNode.next_sibling_id]
  | CNode.mk i pi ri ns nr cs :: b :: rest =>
    rw [nsUnset] at h
    simp only [Bool.and_eq_true, decide_eq_true_eq] at h
    have ih := sibListOK_enrichChildren (b :: rest) p r q h.2
    obtain ⟨t, tl, htl, hid⟩ := enrichChildren_shape b rest p r q
    rw [enrichChildren_cons2, htl, sibListOK]
    rw [htl] at ih
    simp [CNode.next_sibling_id, hid, ih]
termination_by sizeOf nodes

theorem sibForestOK_enrichChildren (nodes : List CNode) (p r : String) (q : Option String)
    (h : nsUnset nodes = true) :
    sibForestOK (enrichChildren nodes p r q) = true := by
  match nodes with
  | [] => simp [enrichChildren_nil, sibForestOK]
  | CNode.mk i pi ri ns nr cs :: rest =>
    rw [nsUnset] at h
    simp only [Bool.and_eq_true, decide_eq_true_eq] at h
    obtain ⟨⟨hns, hcs⟩, hrest⟩ := h
    have hchild : sibListOK (if cs.isEmpty then cs
        else enrichChildren cs i (if r = "" then i else r) q) = true ∧
        sibForestOK (if cs.isEmpty then cs
        else enrichChildren cs i (if r = "" then i else r) q) = true := by
      by_cases hemp : cs.isEmpty
      · simp only [hemp, if_true]
        match cs, hemp with
        | [], _ => exact ⟨rfl, by simp [sibForestOK]⟩
      · simp only [hemp, if_false]
        exact ⟨sibListOK_enrichChildren cs i (if r = "" then i else r) q hcs,
               sibForestOK_enrichChildren cs i (if r = "" then i else r) q hcs⟩
    cases rest with
    | nil =>
      rw [enrichChildren_single, sibForestOK]
      simp [hchild.1, hchild.2, enrichChildren_nil, sibForestOK]
    | cons m mrest =>
      have ih := sibForestOK_enrichChildren (m :: mrest) p r q hrest
      rw [enrichChildren_cons2, sibForestOK]
      simp [hchild.1, hchild.2, ih]
termination_by sizeOf nodes

theorem rootedAll_enrichChildren (nodes : List CNode) (p r : String) (q : Option String)
    (hr : r ≠ "") :
    rootedAll r (enrichChildren nodes p r q) = true := by
  match nodes with
  | [] => simp [enrichChildren_nil, rootedAll]
  | CNode.mk i pi ri ns nr cs :: rest =>
    have hif : (if r = "" then i else r) = r := if_neg hr
    have hchild : rootedAll r (if cs.isEmpty then cs
        else enrichChildren cs i (if r = "" then i else r) q) = true := by
      by_cases hemp : cs.isEmpty
      · simp only [hemp, if_true]
        match cs, hemp with
        | [], _ => simp [rootedAll]
      · simp only [hemp, if_false, hif]
        exact rootedAll_enrichChildren cs i r q hr
    cases rest with
    | nil =>
      rw [enrichChildren_single]
      rw [rootedAll]
      simp [hchild, rootedAll]
    | cons m mrest =>
      have ih := rootedAll_enrichChildren (m :: mrest) p r q hr
      rw [enrichChildren_cons2, rootedAll]
      simp [hchild, ih]
termination_by sizeOf nodes


theorem sibForestOK_enrichRootChildren (ys : List CNode) (h : nsUnset ys = true) :
    sibForestOK (enrichRootChildren ys) = true := by
  match ys with
  | [] => simp [enrichRootChildren, sibForestOK]
  | CNode.mk i pi ri ns nr cs :: rest =>
    rw [nsUnset] at h
    simp only [Bool.and_eq_true, decide_eq_true_eq] at h
    obtain ⟨⟨hns, hcs⟩, hrest⟩ := h
    have ih := sibForestOK_enrichRootChildren rest hrest
    rw [enrichRootChildren, List.map_cons, enrichRoot]
    rw [sibForestOK]
    have hchild : sibListOK (if cs.isEmpty then cs else enrichChildren cs i i nr) = true ∧
        sibForestOK (if cs.isEmpty then cs else enrichChildren cs i i nr) = true := by
      by_cases hemp : cs.isEmpty
      · simp only [hemp, if_true]
        match cs, hemp with
        | [], _ => exact ⟨rfl, by simp [sibForestOK]⟩
      · simp only [hemp, if_false]
        exact ⟨sibListOK_enrichChildren cs i i nr hcs,
               sibForestOK_enrichChildren cs i i nr hcs⟩
    rw [enrichRootChildren] at ih
    simp [hchild.1, hchild.2, ih]
termination_by sizeOf ys

theorem rootIdsOK_enrichRootChildren (ys : List CNode) (h : idsNonEmpty ys = true) :
    rootIdsOK (enrichRootChildren ys) = true := by
  match ys with
  | [] => rfl
  | CNode.mk i pi ri ns nr cs :: rest =>
    rw [idsNonEmpty] at h
    simp only [Bool.and_eq_true, Bool.not_eq_eq_eq_not, Bool.not_true, beq_eq_false_iff_ne,
      ne_eq] at h
    obtain ⟨⟨hi, _⟩, hrest⟩ := h
    have ih := rootIdsOK_enrichRootChildren rest hrest
    rw [enrichRootChildren, List.map_cons, enrichRoot, rootIdsOK]
    have hchild : rootedAll i (if cs.isEmpty then cs else enrichChildren cs i i nr) = true := by
      by_cases hemp : cs.isEmpty
      · simp only [hemp, if_true]
        match cs, hemp with
        | [], _ => simp [rootedAll]
      · simp only [hemp, if_false]
        exact rootedAll_enrichChildren cs i i nr hi
    rw [enrichRootChildren] at ih
    simp [CNode.id, CNode.children, hchild, ih]

theorem nextRootsOK_map_enrichRoot (ys : List CNode) :
    nextRootsOK (ys.map enrichRoot) = nextRootsOK ys := by
  match ys with
  | [] => rfl
  | [a] =>
    simp only [List.map_cons, List.map_nil]
    rw [nextRootsOK, nextRootsOK, enrichRoot_next_root_id]
  | a :: b :: rest =>
    have ih := nextRootsOK_map_enrichRoot (b :: rest)
    simp only [List.map_cons] at ih ⊢
    rw [nextRootsOK, nextRootsOK, enrichRoot_next_root_id, enrichRoot_id, ih]

theorem nextRootsOK_setNextRoots (xs : List CNode) (h : derivedUnset xs = true) :
    nextRootsOK (setNextRoots xs) = true := by
  match xs with
  | [] => rfl
  | [CNode.mk i pi ri ns nr cs] =>
    rw [derivedUnset] at h
    simp only [Bool.and_eq_true, decide_eq_true_eq] at h
    rw [setNextRoots_single, nextRootsOK]
    simp [CNode.next_root_id, h.1.1.2]
  | CNode.mk i pi ri ns nr cs :: b :: rest =>
    rw [derivedUnset] at h
    simp only [Bool.and_eq_true, decide_eq_true_eq] at h
    have ih := nextRootsOK_setNextRoots (b :: rest) h.2
    obtain ⟨t, tl, htl, hid⟩ := setNextRoots_head_id b rest
    rw [setNextRoots_cons2, htl, nextRootsOK]
    rw [htl] at ih
    simp [CNode.next_root_id, hid, ih]

/-- C2 (amended) — for every pre-enrichment forest (derived fields unset)
whose node ids are all nonempty, with at least two root threads: after
`_enrich_comment_tree`, within every children list each non-last child's
`next_sibling_id` is the following sibling's id and the last child's stays
unset; every node below a root has `root_id` equal to that root's id; every
root but the last has `next_root_id` equal to the following root's id, and
only the last root lacks it. -/
theorem C2_enriched_forest_links (f : List CNode) (hlen : 2 ≤ f.length)
    (hids : idsNonEmpty f = true) (hunset : derivedUnset f = true) :
    forestNavOK (enrich_comment_tree f) = true := by
  match f with
  | [] => simp at hlen
  | x :: xs =>
    have h1 : enrich_comment_tree (x :: xs) = enrichRootChildren (setNextRoots (x :: xs)) := by
      rw [enrich_comment_tree]
      simp
    rw [h1, forestNavOK]
    simp only [Bool.and_eq_true]
    refine ⟨⟨?_, ?_⟩, ?_⟩
    · exact sibForestOK_enrichRootChildren _
        (by rw [nsUnset_setNextRoots]; exact derivedUnset_nsUnset _ hunset)
    · exact rootIdsOK_enrichRootChildren _
        (by rw [idsNonEmpty_setNextRoots]; exact hids)
    · rw [enrichRootChildren, nextRootsOK_map_enrichRoot]
      exact nextRootsOK_setNextRoots _ hunset


/-- A fresh forest with two root threads and depth 3 whose first root has the
empty string as id. -/
def emptyIdForest : List CNode :=
  [CNode.mk "" none none none none
    [CNode.mk "c" none none none none
      [CNode.mk "g" none none none none []]],
   CNode.mk "r2" none none none none []]

/-- C2 (counterexample) — the claim as stated fails on a forest with an
empty-string root id: the forest has two root threads and unset derived
fields, yet after enrichment the depth-3 node `g` gets `root_id = some "c"`
(its parent's id, substituted by `root_id or str(node.get('id'))`), not the id
`""` of its top-level ancestor, so the claimed conjunction is false. -/
theorem C2_counterexample :
    2 ≤ emptyIdForest.length ∧ derivedUnset emptyIdForest = true ∧
    forestNavOK (enrich_comment_tree emptyIdForest) = false := by
  refine ⟨by simp [emptyIdForest], by simp [emptyIdForest, derivedUnset], ?_⟩
  simp [emptyIdForest, enrich_comment_tree, setNextRoots, enrichRootChildren, enrichRoot,
    enrichChildren_single, enrichChildren_cons2, enrichChildren_nil, forestNavOK,
    sibForestOK, sibListOK, rootIdsOK, rootedAll, nextRootsOK, CNode.id, CNode.children,
    CNode.next_sibling_id, CNode.next_root_id, CNode.root_id]

/-- A fresh forest with two root threads, depth 3, and nonempty ids. -/
def freshForest : List CNode :=
  [CNode.mk "r1" none none none none
    [CNode.mk "c1" none none none none
      [CNode.mk "g1" none none none none []],
     CNode.mk "c2" none none none none []],
   CNode.mk "r2" none none none none []]

/-- Witness for C2 (amended) at a concrete depth-3, two-thread forest. -/
theorem C2_enriched_forest_links_witness :
    forestNavOK (enrich_comment_tree freshForest) = true :=
  C2_enriched_forest_links freshForest (by simp [freshForest])
    (by simp [freshForest, idsNonEmpty])
    (by simp [freshForest, derivedUnset])

/-- Roots have `parent_id`, `root_id` and `next_sibling_id` all unset. -/
def rootsDerivedClear : List CNode → Bool
  | [] => true
  | CNode.mk _ pi ri ns _ _ :: rest =>
    pi = none && ri = none && ns = none && rootsDerivedClear rest

theorem rootsDerivedClear_setNextRoots (xs : List CNode) :
    rootsDerivedClear (setNextRoots xs) = rootsDerivedClear xs := by
  match xs with
  | [] => rfl
  | [a] => rfl
  | CNode.mk i pi ri ns nr cs :: b :: rest =>
    have ih := rootsDerivedClear_setNextRoots (b :: rest)
    rw [setNextRoots_cons2, rootsDerivedClear, rootsDerivedClear, ih]

theorem rootsDerivedClear_map_enrichRoot (ys : List CNode) :
    rootsDerivedClear (ys.map enrichRoot) = rootsDerivedClear ys := by
  match ys with
  | [] => rfl
  | CNode.mk i pi ri ns nr cs :: rest =>
    have ih := rootsDerivedClear_map_enrichRoot rest
    simp only [List.map_cons]
    rw [enrichRoot, rootsDerivedClear, rootsDerivedClear, ih]

/-- C10 — enrichment never sets `parent_id`, `root_id` or `next_sibling_id` on
a top-level root: if they are unset on every root before enrichment, they are
still unset on every root of the enriched forest (the only derived field the
algorithm writes on a root is `next_root_id`). -/
theorem C10_roots_frame (f : List CNode) (h : rootsDerivedClear f = true) :
    rootsDerivedClear (enrich_comment_tree f) = true := by
  match f with
  | [] => rfl
  | x :: xs =>
    have h1 : enrich_comment_tree (x :: xs) = enrichRootChildren (setNextRoots (x :: xs)) := by
      rw [enrich_comment_tree]
      simp
    rw [h1, enrichRootChildren, rootsDerivedClear_map_enrichRoot,
      rootsDerivedClear_setNextRoots]
    exact h

/-- Witness for C10 at the concrete fresh forest. -/
theorem C10_roots_frame_witness :
    rootsDerivedClear (enrich_comment_tree freshForest) = true :=
  C10_roots_frame freshForest (by simp [freshForest, rootsDerivedClear])


/-- C8 — a raw reference that is a `data:`/`mailto:`/`javascript:` URI or that
matches a junk keyword resolves to no Asset, changes no state, and issues zero
network calls, whatever the oracles, base URL and existing assets. -/
theorem C8_junk_reference_rejected (ctx : GenCtx) (base_url : String)
    (assets : List ImageAsset) (u : String)
    (h : ImageProcessor_is_junk u = true ∨ strStartsWith u "data:" = true ∨
         strStartsWith u "mailto:" = true ∨ strStartsWith u "javascript:" = true) :
    (process_tag_generic ctx base_url assets ⟨some u, none, none, none, false, none⟩).fetched
        = [] ∧
    (process_tag_generic ctx base_url assets ⟨some u, none, none, none, false, none⟩).assets
        = assets ∧
    ((process_tag_generic ctx base_url assets
        ⟨some u, none, none, none, false, none⟩).result).assetOf = none := by
  by_cases hS : strStartsWith u IMAGE_DIR_IN_EPUB = true
  · simp [process_tag_generic, hS, GenResult.assetOf]
  · by_cases hj : ImageProcessor_is_junk u = true
    · by_cases hu : u = ""
      · subst hu
        simp [process_tag_generic, hS, select_final_src, wapoSeed, optNE, hj,
          GenResult.assetOf]
      · simp [process_tag_generic, hS, select_final_src, wapoSeed, optNE, hj, hu,
          GenResult.assetOf]
    · have htriple : strStartsWith u "data:" = true ∨ strStartsWith u "mailto:" = true ∨
          strStartsWith u "javascript:" = true := by
        rcases h with h | h
        · exact absurd h hj
        · exact h
      have hu : u ≠ "" := by
        intro he
        subst he
        simp [ImageProcessor_is_junk] at hj
      rcases htriple with h1 | h1 | h1 <;>
        simp [process_tag_generic, hS, select_final_src, wapoSeed, optNE, hj, hu, h1,
          GenResult.assetOf]

/-- Witness for C8 at a junk reference (`spacer.gif`) with trivial oracles. -/
theorem C8_junk_reference_rejected_witness :
    (process_tag_generic
        ⟨fun _ => none, ⟨fun _ => none, fun i => i, fun _ _ => []⟩, fun _ => 0,
         fun _ => false, none⟩
        "https://site.com/page" []
        ⟨some "https://x.com/spacer.gif", none, none, none, false, none⟩).fetched = [] ∧
    (process_tag_generic
        ⟨fun _ => none, ⟨fun _ => none, fun i => i, fun _ _ => []⟩, fun _ => 0,
         fun _ => false, none⟩
        "https://site.com/page" []
        ⟨some "https://x.com/spacer.gif", none, none, none, false, none⟩).assets = [] ∧
    ((process_tag_generic
        ⟨fun _ => none, ⟨fun _ => none, fun i => i, fun _ _ => []⟩, fun _ => 0,
         fun _ => false, none⟩
        "https://site.com/page" []
        ⟨some "https://x.com/spacer.gif", none, none, none, false, none⟩).result).assetOf
      = none :=
  C8_junk_reference_rejected _ "https://site.com/page" [] "https://x.com/spacer.gif"
    (Or.inl (by decide))


/-- Helper for C9: under the small-image hypothesis every fetched payload is
rejected, so the candidate loop never succeeds. -/
theorem try_candidates_none_of_small (ctx : GenCtx)
    (hall : ∀ u ct data, ctx.fetchImg u = some (ct, data) →
      12 * 1024 ≤ data.length ∧
      ∃ img, ctx.px.decode data = some img ∧ (img.width < 20 ∨ img.height < 20)) :
    ∀ (cands : List String) (idx : Nat), (try_candidates ctx cands idx).snd = none := by
  intro cands
  induction cands with
  | nil => intro idx; rfl
  | cons cand rest ih =>
    intro idx
    rw [try_candidates]
    by_cases ht : ctx.timeOver idx
    · simp [ht]
    · simp only [ht, Bool.false_eq_true, if_false]
      rcases hf : ctx.fetchImg cand with _ | ⟨ct, data⟩
      · simp [ih]
      · obtain ⟨hlen, img, hdec, hdim⟩ := hall cand ct data hf
        by_cases hemp : data.isEmpty
        · simp [hemp, ih]
        · have hopt : optimize_and_get_details ctx.px cand ct data = .err "Tracking Pixel" := by
            rw [optimize_and_get_details]
            rw [if_neg (by simp [hemp])]
            rw [if_neg (by omega)]
            rw [hdec]
            simp [hdim]
          simp [hemp, hopt, ih]

set_option maxHeartbeats 2000000 in
/-- Helper for C9: when the candidate loop cannot succeed, a tag resolves
without minting and the asset list is untouched. -/
theorem process_tag_generic_no_mint (ctx : GenCtx) (base_url : String)
    (assets : List ImageAsset) (tag : GTag)
    (htc : ∀ cands idx, (try_candidates ctx cands idx).snd = none) :
    ∃ fetched res, process_tag_generic ctx base_url assets tag = ⟨assets, fetched, res⟩ ∧
      ∀ a, res ≠ GenResult.minted a := by
  rw [process_tag_generic]
  repeat' (first | split | (dsimp only; split))
  all_goals try (refine ⟨_, _, rfl, ?_⟩; simp)
  all_goals simp_all [htc]

/-- C9 (amended) — for every fetched payload of at least `12 * 1024` bytes that
decodes to an image with width or height below 20 pixels, validation returns
the `Tracking Pixel` error; when every fetch of a tag yields such a payload,
the tag's processing creates no Asset and leaves the asset list unchanged. -/
theorem C9_small_image_rejected (ctx : GenCtx) (base_url : String)
    (assets : List ImageAsset) (tag : GTag)
    (hall : ∀ u ct data, ctx.fetchImg u = some (ct, data) →
      12 * 1024 ≤ data.length ∧
      ∃ img, ctx.px.decode data = some img ∧ (img.width < 20 ∨ img.height < 20)) :
    (∀ u ct data, ctx.fetchImg u = some (ct, data) → data.isEmpty = false →
      optimize_and_get_details ctx.px u ct data = .err "Tracking Pixel") ∧
    (process_tag_generic ctx base_url assets tag).assets = assets ∧
    (∀ a, (process_tag_generic ctx base_url assets tag).result ≠ .minted a) := by
  refine ⟨?_, ?_⟩
  · intro u ct data hf hemp
    obtain ⟨hlen, img, hdec, hdim⟩ := hall u ct data hf
    rw [optimize_and_get_details]
    rw [if_neg (by simp [hemp])]
    rw [if_neg (by omega)]
    rw [hdec]
    simp [hdim]
  · obtain ⟨fetched, res, heq, hnm⟩ :=
      process_tag_generic_no_mint ctx base_url assets tag
        (try_candidates_none_of_small ctx hall)
    rw [heq]
    exact ⟨rfl, hnm⟩


/-- Oracles for the C9 counterexample: the payload is 2 bytes long and decodes
to a 1×1 animated-less GIF. -/
def smallPayloadCtx : GenCtx :=
  ⟨fun u => if u = "https://a.com/one.jpg" then some (some "image/jpeg", [9, 9]) else none,
   ⟨fun _ => some ⟨1, 1, "GIF", false⟩, fun i => i, fun _ _ => []⟩,
   fun _ => 0, fun _ => false, none⟩

/-- C9 (counterexample) — the claim as stated fails: a 2-byte payload that
decodes to a 1×1 image (below the minimum dimension 20) is NOT rejected,
because `optimize_and_get_details` returns any payload under `12 * 1024` bytes
unvalidated (image_processor.py line 60), and an Asset is created from it. -/
theorem C9_counterexample :
    smallPayloadCtx.px.decode [9, 9] = some ⟨1, 1, "GIF", false⟩ ∧
    (1 : Nat) < 20 ∧
    optimize_and_get_details smallPayloadCtx.px "https://a.com/one.jpg"
        (some "image/jpeg") [9, 9] = .ok "image/jpeg" ".jpg" [9, 9] ∧
    (process_tag_generic smallPayloadCtx "https://site.com/page" []
        ⟨some "https://a.com/one.jpg", none, none, none, false, none⟩).assets =
      [⟨"img_0", "images/one.jpg", "image/jpeg", [9, 9], "https://a.com/one.jpg",
        some ["https://a.com/one.jpg"]⟩] := by
  decide

/-- Oracles for the C9 witness: a 12 KiB payload that decodes to a 1×1
image. -/
def bigTrackingPixelCtx : GenCtx :=
  ⟨fun u => if u = "https://a.com/one.jpg"
            then some (some "image/jpeg", List.replicate (12 * 1024) 7) else none,
   ⟨fun _ => some ⟨1, 1, "GIF", false⟩, fun i => i, fun _ _ => []⟩,
   fun _ => 0, fun _ => false, none⟩

/-- Witness for C9 (amended) at the 12 KiB tracking-pixel payload. -/
theorem C9_small_image_rejected_witness :
    (∀ u ct data, bigTrackingPixelCtx.fetchImg u = some (ct, data) → data.isEmpty = false →
      optimize_and_get_details bigTrackingPixelCtx.px u ct data = .err "Tracking Pixel") ∧
    (process_tag_generic bigTrackingPixelCtx "https://site.com/page" []
        ⟨some "https://a.com/one.jpg", none, none, none, false, none⟩).assets = [] ∧
    (∀ a, (process_tag_generic bigTrackingPixelCtx "https://site.com/page" []
        ⟨some "https://a.com/one.jpg", none, none, none, false, none⟩).result ≠
      .minted a) :=
  C9_small_image_rejected bigTrackingPixelCtx "https://site.com/page" []
    ⟨some "https://a.com/one.jpg", none, none, none, false, none⟩
    (by
      intro u ct data hf
      by_cases hu : u = "https://a.com/one.jpg"
      · subst hu
        simp only [bigTrackingPixelCtx, if_true, Option.some.injEq, Prod.mk.injEq] at hf
        obtain ⟨hct, hdata⟩ := hf
        subst hdata
        refine ⟨by rw [List.length_replicate], ⟨1, 1, "GIF", false⟩, rfl, by left; decide⟩
      · simp only [bigTrackingPixelCtx, hu, if_false] at hf
        exact absurd hf (by simp))

/-- An existing Asset whose URL differs from the new reference only in
scheme. -/
def schemeAsset : ImageAsset :=
  ⟨"img_9", "images/a.jpg", "image/jpeg", [9], "https://a.com/img.jpg",
   some ["https://a.com/img.jpg"]⟩

/-- Oracles for the C4 counterexample. -/
def schemeCtx : GenCtx :=
  ⟨fun u => if u = "http://a.com/img.jpg" then some (some "image/jpeg", [1, 2]) else none,
   ⟨fun _ => none, fun i => i, fun _ _ => []⟩, fun _ => 0, fun _ => false, none⟩

/-- C4 (counterexample) — the claim as stated fails on the generic processor:
the reference `http://a.com/img.jpg` normalizes to the same URL as the
existing Asset's `https://a.com/img.jpg`, yet `ImageProcessor.process_images`
checks only `a.original_url == full_url` exactly (image_processor.py line
616), so it fetches the URL over the network and mints a second Asset instead
of returning the existing one. -/
theorem C4_counterexample :
    normalize_url_for_matching "http://a.com/img.jpg" =
        normalize_url_for_matching schemeAsset.original_url ∧
    (process_tag_generic schemeCtx "https://site.com/page" [schemeAsset]
        ⟨some "http://a.com/img.jpg", none, none, none, false, none⟩).fetched =
      ["http://a.com/img.jpg"] ∧
    (process_tag_generic schemeCtx "https://site.com/page" [schemeAsset]
        ⟨some "http://a.com/img.jpg", none, none, none, false, none⟩).assets.length = 2 ∧
    ((process_tag_generic schemeCtx "https://site.com/page" [schemeAsset]
        ⟨some "http://a.com/img.jpg", none, none, none, false, none⟩).result).assetOf ≠
      some schemeAsset := by
  decide

/-- C4 (amended) — in the forum image processor, when the resolved reference
URL maps (exactly or in normalized form) to an existing Asset in the preload
map built over the bundle's assets, `process_tag_forum` returns that Asset
with no network fetch and no state change.  The hypotheses pin down the
shape of the reference (an absolute, non-junk, non-attachment image URL). -/
theorem C4_forum_known_url_no_fetch (ctx : ForumCtx) (base_url : String)
    (st : ForumState) (u : String)
    (hjunk : ForumImageProcessor_is_junk u = false)
    (hd : strStartsWith u "data:" = false)
    (hvs : strStartsWith u "view-source:" = false)
    (hm : strStartsWith u "mailto:" = false)
    (hjs : strStartsWith u "javascript:" = false)
    (habs : containsSub u "://" = true)
    (htrim : strStrip u = u)
    (harch : strStartsWith u "http://" = false)
    (hav : containsSub u "/avatar" = false)
    (hav2 : containsSub u "/avatars/" = false)
    (hext : has_forum_image_extension u = true)
    (hatt : containsSub u "/attachments/" = false)
    (hhit : (forum_match st.preload [u]).isSome = true) :
    ∃ b, forum_match st.preload [u] = some b ∧
      process_tag_forum ctx base_url st ⟨some u, none, none, none, none, none, none⟩ =
        (st, [], .reused b) := by
  have hne : u ≠ "" := by
    intro he
    subst he
    simp [ForumImageProcessor_is_junk] at hjunk
  obtain ⟨b, hb⟩ := Option.isSome_iff_exists.mp hhit
  refine ⟨b, hb, ?_⟩
  have hsel : forum_select_src ⟨some u, none, none, none, none, none, none⟩ = some u := by
    rw [forum_select_src]
    simp [hne, hjunk]
  have hfull : urljoin base_url (strStrip u) = u := by
    rw [htrim, urljoin]
    rw [if_neg hne, if_pos (by simp [habs])]
  rw [process_tag_forum, hsel]
  dsimp only
  rw [if_neg (by simp [hne, hd, hm, hjs])]
  simp only [hvs, Bool.false_eq_true, if_false]
  have hb2 : strStartsWith (urljoin base_url (strStrip u)) "http://" = false := by
    rw [hfull]
    exact harch
  have harchif : (if containsSub base_url "web.archive.org" = true ∧
        strStartsWith (urljoin base_url (strStrip u)) "http://" = true then
        "https://" ++ (urljoin base_url (strStrip u)).drop 7
      else urljoin base_url (strStrip u)) = u := by
    rw [if_neg (fun h => Bool.false_ne_true (hb2 ▸ h.2))]
    exact hfull
  simp only [harchif]
  rw [if_neg (fun h => h.elim
    (fun h1 => Bool.false_ne_true (hav ▸ h1))
    (fun h2 => Bool.false_ne_true (hav2 ▸ h2)))]
  rw [if_neg (fun h => h.1 hext)]
  simp only [hatt, Bool.false_eq_true, if_false, Option.getD_none, Option.toList_none,
    List.append_nil, List.nil_append]
  rw [hb]

/-- An asset registered under `http://www.a.com/pic.jpg`, whose normalized
form matches the witness reference. -/
def wwwAsset : ImageAsset :=
  ⟨"img_7", "images/pic.jpg", "image/jpeg", [7], "http://www.a.com/pic.jpg", none⟩

/-- A forum context whose oracles are never consulted in the witness run. -/
def idleForumCtx : ForumCtx :=
  ⟨fun _ _ => none, ⟨fun _ => none, fun i => i, fun _ _ => []⟩, fun _ => 0⟩

/-- Witness for C4 (amended): `https://a.com/pic.jpg` hits the normalized
preload entry of `wwwAsset` and is reused with no fetch. -/
theorem C4_forum_known_url_no_fetch_witness :
    ∃ b, forum_match (build_forum_state [wwwAsset]).preload ["https://a.com/pic.jpg"] =
        some b ∧
      process_tag_forum idleForumCtx "https://forum.com/t" (build_forum_state [wwwAsset])
          ⟨some "https://a.com/pic.jpg", none, none, none, none, none, none⟩ =
        (build_forum_state [wwwAsset], [], .reused b) :=
  C4_forum_known_url_no_fetch idleForumCtx "https://forum.com/t"
    (build_forum_state [wwwAsset]) "https://a.com/pic.jpg"
    (by decide) (by decide) (by decide) (by decide) (by decide) (by decide) (by decide)
    (by decide) (by decide) (by decide) (by decide) (by decide) (by decide)

/-- Oracles for the C1 counterexample: two distinct URLs serving identical
bytes. -/
def dupPayloadCtx : GenCtx :=
  ⟨fun u => if u = "https://a.com/one.jpg" ∨ u = "https://b.com/two.jpg"
            then some (some "image/jpeg", [1, 2, 3]) else none,
   ⟨fun _ => none, fun i => i, fun _ _ => []⟩, fun _ => 0, fun _ => false, none⟩

/-- C1 (counterexample) — the claim as stated fails on the generic processor:
resolving the same 3-byte payload through the two distinct references
`https://a.com/one.jpg` and `https://b.com/two.jpg` yields TWO Assets with
identical content (hence identical content hash): `ImageProcessor.
process_images` deduplicates only on an exact `original_url` match and never
hashes content (image_processor.py lines 616 and 684-721).  The second URL is
also absent from the first Asset's alternate-URL set. -/
theorem C1_counterexample :
    (process_tags_generic dupPayloadCtx "https://site.com/page" []
      [⟨some "https://a.com/one.jpg", none, none, none, false, none⟩,
       ⟨some "https://b.com/two.jpg", none, none, none, false, none⟩]).fst.length = 2 ∧
    ((process_tags_generic dupPayloadCtx "https://site.com/page" []
      [⟨some "https://a.com/one.jpg", none, none, none, false, none⟩,
       ⟨some "https://b.com/two.jpg", none, none, none, false, none⟩]).fst.map
        (fun a => a.content)) = [[1, 2, 3], [1, 2, 3]] ∧
    ((process_tags_generic dupPayloadCtx "https://site.com/page" []
      [⟨some "https://a.com/one.jpg", none, none, none, false, none⟩,
       ⟨some "https://b.com/two.jpg", none, none, none, false, none⟩]).fst.map
        (fun a => a.alt_urls)) =
      [some ["https://a.com/one.jpg"], some ["https://b.com/two.jpg"]] := by
  decide

/-- If the source's `if hashed and hashed in hash_map` guard fell through to
the minting branch, the minted content was either unhashable (empty) or absent
from the hash map. -/
theorem hash_if_none (m : List (Bytes × ImageAsset)) (d : Bytes)
    (h : (if d ≠ [] then hashLookup m d else none) = none) :
    d = [] ∨ hashLookup m d = none := by
  by_cases hd : d = []
  · exact Or.inl hd
  · rw [if_pos hd] at h
    exact Or.inr h

set_option maxHeartbeats 1000000 in
/-- The fetch/validate/dedup/mint tail either leaves the state untouched
(failure or content-hash reuse) or appends exactly one Asset whose content
was not yet in the hash map. -/
theorem forum_fetch_resolve_cases (ctx : ForumCtx) (st : ForumState) (full_url : String)
    (viewer_url attachment_base : Option String) (attach_target : String) :
    ((forum_fetch_resolve ctx st full_url viewer_url attachment_base attach_target).fst = st ∧
      ∀ a, (forum_fetch_resolve ctx st full_url viewer_url attachment_base
        attach_target).snd.snd ≠ FResult.minted a) ∨
    (∃ a, (forum_fetch_resolve ctx st full_url viewer_url attachment_base
        attach_target).snd.snd = FResult.minted a ∧
      (forum_fetch_resolve ctx st full_url viewer_url attachment_base
        attach_target).fst.assets = st.assets ++ [a] ∧
      (forum_fetch_resolve ctx st full_url viewer_url attachment_base
        attach_target).fst.hashes =
        (if a.content ≠ [] then hashInsert st.hashes a.content a else st.hashes) ∧
      (a.content = [] ∨ hashLookup st.hashes a.content = none)) := by
  rw [forum_fetch_resolve.eq_def]
  repeat' (first | split | (dsimp only; split))
  all_goals try (left; exact ⟨rfl, by simp⟩)
  all_goals
    (right
     refine ⟨_, rfl, rfl, ?_, hash_if_none _ _ (by assumption)⟩
     dsimp only
     split
     all_goals first | rfl | simp_all)

set_option maxHeartbeats 1000000 in
/-- Helper for C1: one forum tag either leaves the whole state untouched
(skip, failure, or reuse of an existing Asset — so no URL is recorded either)
or appends exactly one Asset whose content was not yet in the hash map. -/
theorem process_tag_forum_cases (ctx : ForumCtx) (base_url : String) (st : ForumState)
    (tag : FTag) :
    ((process_tag_forum ctx base_url st tag).fst = st ∧
      ∀ a, (process_tag_forum ctx base_url st tag).snd.snd ≠ FResult.minted a) ∨
    (∃ a, (process_tag_forum ctx base_url st tag).snd.snd = FResult.minted a ∧
      (process_tag_forum ctx base_url st tag).fst.assets = st.assets ++ [a] ∧
      (process_tag_forum ctx base_url st tag).fst.hashes =
        (if a.content ≠ [] then hashInsert st.hashes a.content a else st.hashes) ∧
      (a.content = [] ∨ hashLookup st.hashes a.content = none)) := by
  rw [process_tag_forum]
  repeat' (first | split | (dsimp only; split))
  all_goals try (left; exact ⟨rfl, by simp⟩)
  all_goals exact forum_fetch_resolve_cases _ _ _ _ _ _

/-- Inserting a content hash makes its key present. -/
theorem hashLookup_insert_self (m : List (Bytes × ImageAsset)) (k : Bytes) (a : ImageAsset) :
    hashLookup (hashInsert m k a) k = some a := by
  unfold hashLookup hashInsert
  rw [List.find?_cons_of_pos (p := fun q => q.1 == k) m (by simp)]
  rfl

/-- Inserting a content hash keeps every previously present key present. -/
theorem hashLookup_insert_ne_none (m : List (Bytes × ImageAsset)) (k d : Bytes)
    (a : ImageAsset) (h : hashLookup m d ≠ none) :
    hashLookup (hashInsert m k a) d ≠ none := by
  unfold hashLookup hashInsert
  by_cases hb : ((k, a).fst == d) = true
  · rw [List.find?_cons_of_pos (p := fun q => q.1 == d) m hb]
    simp
  · rw [List.find?_cons_of_neg (p := fun q => q.1 == d) m (by simpa using hb)]
    exact h

/-- One forum tag preserves the hash-map invariant: every Asset with
nonempty content is registered in the hash map, and no two Assets share
the same nonempty content. -/
theorem forum_invariant_step (ctx : ForumCtx) (base_url : String) (st : ForumState)
    (tag : FTag)
    (hc : ∀ a ∈ st.assets, a.content ≠ [] → hashLookup st.hashes a.content ≠ none)
    (hdist : st.assets.Pairwise (fun a b => a.content ≠ [] → a.content ≠ b.content)) :
    (∀ a ∈ (process_tag_forum ctx base_url st tag).fst.assets, a.content ≠ [] →
       hashLookup (process_tag_forum ctx base_url st tag).fst.hashes a.content ≠ none) ∧
    (process_tag_forum ctx base_url st tag).fst.assets.Pairwise
      (fun a b => a.content ≠ [] → a.content ≠ b.content) := by
  rcases process_tag_forum_cases ctx base_url st tag with
    ⟨heq, _⟩ | ⟨a, _, hassets, hhash, hfresh⟩
  · rw [heq]
    exact ⟨hc, hdist⟩
  · constructor
    · intro b hb hbne
      rw [hassets] at hb
      rw [hhash]
      rcases List.mem_append.mp hb with hb | hb
      · by_cases hac : a.content ≠ []
        · rw [if_pos hac]
          exact hashLookup_insert_ne_none _ _ _ _ (hc b hb hbne)
        · rw [if_neg hac]
          exact hc b hb hbne
      · have hba : b = a := by simpa using hb
        subst hba
        rw [if_pos hbne, hashLookup_insert_self]
        simp
    · rw [hassets]
      refine List.pairwise_append.mpr ⟨hdist, List.pairwise_singleton _ _, ?_⟩
      intro x hx y hy hxne hcontra
      have hya : y = a := by simpa using hy
      subst hya
      rcases hfresh with hnil | hnone
      · exact hxne (hcontra.trans hnil)
      · exact (hc x hx hxne) (hcontra ▸ hnone)

/-- The whole forum run preserves the hash-map invariant. -/
theorem forum_invariant_run (ctx : ForumCtx) (base_url : String) :
    ∀ (tags : List FTag) (st : ForumState),
    (∀ a ∈ st.assets, a.content ≠ [] → hashLookup st.hashes a.content ≠ none) →
    st.assets.Pairwise (fun a b => a.content ≠ [] → a.content ≠ b.content) →
    (∀ a ∈ (process_tags_forum ctx base_url st tags).fst.assets, a.content ≠ [] →
       hashLookup (process_tags_forum ctx base_url st tags).fst.hashes a.content ≠ none) ∧
    (process_tags_forum ctx base_url st tags).fst.assets.Pairwise
      (fun a b => a.content ≠ [] → a.content ≠ b.content)
  | [], st, hc, hdist => by
    exact ⟨hc, hdist⟩
  | tag :: rest, st, hc, hdist => by
    have hstep := forum_invariant_step ctx base_url st tag hc hdist
    have hrest := forum_invariant_run ctx base_url rest
      (process_tag_forum ctx base_url st tag).fst hstep.1 hstep.2
    exact hrest

/-- A forum context that serves the same 3-byte payload for two distinct
image URLs (the small-payload bypass in `optimize_and_get_details` accepts
it without decoding). -/
def dupForumCtx : ForumCtx :=
  ⟨fun u _ => if u = "https://a.com/one.jpg" ∨ u = "https://b.com/two.jpg"
              then some (some "image/jpeg", [1, 2, 3]) else none,
   ⟨fun _ => none, fun i => i, fun _ _ => []⟩, fun _ => 0⟩

/-- C1 (amended) — content-hash deduplication holds in the forum resolver:
starting from any state in which every Asset with nonempty content is
registered in the content-hash map and no two Assets share the same nonempty
content, `ForumImageProcessor.process_images` (lines 1167-1201) never mints a
second Asset with the same nonempty byte content — after processing any tag
list the asset list is pairwise content-distinct.  (The generic
`ImageProcessor.process_images` offers no such guarantee, and a content-hash
reuse does not extend the kept Asset's alternate-URL set; see the
counterexample.) -/
theorem C1_content_dedup (ctx : ForumCtx) (base_url : String) (st : ForumState)
    (tags : List FTag)
    (hc : ∀ a ∈ st.assets, a.content ≠ [] → hashLookup st.hashes a.content ≠ none)
    (hdist : st.assets.Pairwise (fun a b => a.content ≠ [] → a.content ≠ b.content)) :
    (process_tags_forum ctx base_url st tags).fst.assets.Pairwise
      (fun a b => a.content ≠ [] → a.content ≠ b.content) :=
  (forum_invariant_run ctx base_url tags st hc hdist).2

/-- Witness for C1 (amended): from the empty state, resolving the same
3-byte payload through `https://a.com/one.jpg` and `https://b.com/two.jpg`
leaves the bundle pairwise content-distinct — and indeed mints exactly one
Asset, reusing it for the second URL. -/
theorem C1_content_dedup_witness :
    (∀ a ∈ (build_forum_state []).assets, a.content ≠ [] →
       hashLookup (build_forum_state []).hashes a.content ≠ none) ∧
    (build_forum_state []).assets.Pairwise
      (fun a b => a.content ≠ [] → a.content ≠ b.content) ∧
    (process_tags_forum dupForumCtx "https://forum.com/t" (build_forum_state [])
        [⟨some "https://a.com/one.jpg", none, none, none, none, none, none⟩,
         ⟨some "https://b.com/two.jpg", none, none, none, none, none, none⟩]).fst.assets.Pairwise
      (fun a b => a.content ≠ [] → a.content ≠ b.content) ∧
    (process_tags_forum dupForumCtx "https://forum.com/t" (build_forum_state [])
        [⟨some "https://a.com/one.jpg", none, none, none, none, none, none⟩,
         ⟨some "https://b.com/two.jpg", none, none, none, none, none, none⟩]).fst.assets.length
      = 1 :=
  ⟨by decide, by decide,
   C1_content_dedup dupForumCtx "https://forum.com/t" (build_forum_state [])
     [⟨some "https://a.com/one.jpg", none, none, none, none, none, none⟩,
      ⟨some "https://b.com/two.jpg", none, none, none, none, none, none⟩]
     (by decide) (by decide),
   by decide⟩

end Dala
